import Mathlib

/-!  Formal model of the survey pre-processing core of
`streamlit_survey_prepro_app.py`.  A pandas `DataFrame` is modelled as an
ordered list of named columns of cells; the helper routines
`detect_pairs`, `detect_multiresp`, `handle_missing`, `add_weights` and
`label_encode` are translated statement by statement from the source.
Pandas exceptions (`KeyError`, `ValueError`, `TypeError`) are modelled
with `Except`.  Floating point numbers are modelled as rationals. -/

/-- A pandas cell value: a string, an integer, a float (modelled as a
rational), a missing value (`NaN`), or a Python tuple (tuples appear as
values of the `__key__` strata column built by `add_weights`). -/
inductive Cell where
  | str : String → Cell
  | int : Int → Cell
  | num : ℚ → Cell
  | missing : Cell
  | tup : List Cell → Cell

/-- `pd.notna` is false exactly on the missing cell. -/
def Cell.isMissing : Cell → Bool
  | .missing => true
  | _ => false

mutual

/-- Python `==` on cell values: numbers compare across int/float
(`1 == 1.0`), `NaN == NaN` is false (so `missing` is not `pyEq` to
itself), tuples compare elementwise, different kinds never compare
equal.  This is plain Python value equality (as used by `nunique` after
`dropna`, and by the codebook's pair de-duplication, which only ever
sees non-missing cells); the NaN-aware key matching that pandas' hash
table applies in `value_counts` grouping and `merge` joins is modelled
separately by `nanEq` below. -/
def Cell.pyEq : Cell → Cell → Bool
  | .str a, .str b => a == b
  | .int a, .int b => a == b
  | .num a, .num b => a == b
  | .int a, .num b => ((a : ℚ) == b)
  | .num a, .int b => (a == (b : ℚ))
  | .tup a, .tup b => Cell.pyEqList a b
  | _, _ => false

/-- Elementwise Python `==` on tuples of cells. -/
def Cell.pyEqList : List Cell → List Cell → Bool
  | [], [] => true
  | a :: as, b :: bs => Cell.pyEq a b && Cell.pyEqList as bs
  | _, _ => false

end

mutual

/-- The NaN-aware equality pandas applies when matching grouper/merge
key tuples (`value_counts` grouping and `merge` on `__key__`): like
Python `==`, except that `missing` matches `missing`.  Every missing
cell in this app holds the shared `np.nan` singleton, so the tuple
comparison takes the object-identity shortcut on it (and modern pandas'
object hash table compares NaNs equal outright): key tuples such as
`("A", nan)` compare and hash equal. -/
def Cell.nanEq : Cell → Cell → Bool
  | .missing, .missing => true
  | .str a, .str b => a == b
  | .int a, .int b => a == b
  | .num a, .num b => a == b
  | .int a, .num b => ((a : ℚ) == b)
  | .num a, .int b => (a == (b : ℚ))
  | .tup a, .tup b => Cell.nanEqList a b
  | _, _ => false

/-- Elementwise NaN-aware equality on tuples of cells. -/
def Cell.nanEqList : List Cell → List Cell → Bool
  | [], [] => true
  | a :: as, b :: bs => Cell.nanEq a b && Cell.nanEqList as bs
  | _, _ => false

end

/-- Python `str()` of a cell value, as used by `.astype(str)`.  Strings
and integers are rendered exactly as Python renders them; the rendering
of floats and tuples is approximated (no claim below depends on it). -/
def Cell.pyStr : Cell → String
  | .str s => s
  | .int n => toString n
  | .num q => toString q.num ++ "/" ++ toString q.den
  | .missing => "nan"
  | .tup _ => "(tuple)"

/-- A pandas column name: the app's loaders can produce non-string
(e.g. integer) column labels, which `detect_pairs` handles explicitly. -/
inductive ColName where
  | str : String → ColName
  | int : Int → ColName
deriving DecidableEq

/-- Python `str()` of a column label. -/
def ColName.pyStr : ColName → String
  | .str s => s
  | .int n => toString n

/-- One named column. -/
structure Column where
  name : ColName
  cells : List Cell

/-- A pandas `DataFrame`: an ordered list of named columns. -/
structure Table where
  cols : List Column

/-- pandas exception kinds raised by the modelled routines. -/
inductive PdError where
  | keyError
  | valueError
  | typeError
deriving DecidableEq

def Table.names (t : Table) : List ColName := t.cols.map (·.name)

/-- `len(df)`: the row count (length of the first column; `0` for a
frame with no columns). -/
def Table.nrows (t : Table) : Nat := ((t.cols.head?).map (·.cells.length)).getD 0

/-- `df[s]` for a string key `s`: the column whose label equals the
string `s` (an integer label `5` never matches the string `"5"`). -/
def Table.getColStr (t : Table) (s : String) : Option Column :=
  t.cols.find? (·.name == ColName.str s)

/-- Column lookup by the exact label object. -/
def Table.getColObj (t : Table) (n : ColName) : Option Column :=
  t.cols.find? (·.name == n)

/-- Cells of the column labelled by string `s` (empty if absent; callers
guard with `getColStr`). -/
def Table.cellsOfStr (t : Table) (s : String) : List Cell :=
  ((t.getColStr s).map (·.cells)).getD []

/-- `df[s] = cells`: overwrite the column in place if the label exists,
else append a new column at the end. -/
def Table.setColStr (t : Table) (s : String) (cs : List Cell) : Table :=
  if (t.getColStr s).isSome then
    ⟨t.cols.map fun c => if c.name == ColName.str s then ⟨c.name, cs⟩ else c⟩
  else ⟨t.cols ++ [⟨ColName.str s, cs⟩]⟩

/-- `df.rename(columns={s: new})`: renames the matching column, silently
a no-op when no column is labelled `s`. -/
def Table.renameStr (t : Table) (s new : String) : Table :=
  ⟨t.cols.map fun c => if c.name == ColName.str s then ⟨ColName.str new, c.cells⟩ else c⟩

/-- `df.drop(columns=n)`: removes the column, raising `KeyError` when it
is absent. -/
def Table.dropObj (t : Table) (n : ColName) : Except PdError Table :=
  if t.names.contains n then .ok ⟨t.cols.filter (fun c => !(c.name == n))⟩
  else .error .keyError

/-- Structural well-formedness used as a hypothesis: every column has
`nrows` cells. -/
def Table.wfLens (t : Table) : Bool := t.cols.all (fun c => c.cells.length == t.nrows)

/-! ### Column Pattern Detector (source lines 36–55) -/

/-- Python `s.endswith(suf)`, over the character lists (the built-in
`String.endsWith` does not reduce inside the kernel). -/
def strEndsWith (s suf : String) : Bool := suf.data.isSuffixOf s.data

/-- Python `s[:-k]`: drop the last `k` characters. -/
def strDropRight (s : String) (k : Nat) : String :=
  String.mk (s.data.take (s.data.length - k))

/-- Python dict assignment `pairs[k] = v` on an insertion-ordered
association list. -/
def dictInsert (ps : List (String × ColName)) (k : String) (v : ColName) :
    List (String × ColName) :=
  if ps.any (·.1 == k) then ps.map (fun p => if p.1 == k then (k, v) else p)
  else ps ++ [(k, v)]

/-- `detect_pairs(columns)`: for each column whose `str()` ends in the
literal `"(TEXT)"`, strip the 6-character suffix and keep the pair when
the candidate code name is present among the columns (either as the
string label itself or as the `str()` of a non-string label).  The dict
maps the *string* code name to the original text-column label object. -/
def detect_pairs (columns : List ColName) : List (String × ColName) :=
  columns.foldl (fun pairs col =>
    let colStr := col.pyStr
    if strEndsWith colStr "(TEXT)" then
      let code_col := strDropRight colStr 6
      if columns.contains (ColName.str code_col)
          || (columns.map ColName.pyStr).contains code_col then
        dictInsert pairs code_col col
      else pairs
    else pairs) []

/-- `groups.setdefault(g, []).append(c)` on an insertion-ordered
association list. -/
def addToGroup (gs : List (String × List String)) (g c : String) :
    List (String × List String) :=
  if gs.any (·.1 == g) then gs.map (fun p => if p.1 == g then (p.1, p.2 ++ [c]) else p)
  else gs ++ [(g, [c])]

/-- `re.match(r'(.*?)_', c)`: group 1 of the lazy match, i.e. the text
before the first `'_'`, provided no newline occurs before it (`.` does
not match a newline); `none` when the regex does not match. -/
def underscoreKey (s : String) : Option String :=
  let pre := s.data.takeWhile (fun ch => ch != '_' && ch != '\n')
  match (s.data.drop pre.length).head? with
  | some '_' => some (String.mk pre)
  | _ => none

/-- `detect_multiresp(code_cols)`: group the names by their text before
the first `'_'` (names without `'_'` are skipped) and retain only the
groups with at least two members, in first-encounter order. -/
def detect_multiresp (code_cols : List String) : List (String × List String) :=
  (code_cols.foldl (fun gs c =>
    match underscoreKey c with
    | some g => addToGroup gs g c
    | none => gs) []).filter (fun p => 2 ≤ p.2.length)

/-- The flattened set *M* of multi-response member columns,
`{c for cols in multiresp.values() for c in cols}`. -/
def multirespFlat (code_cols : List String) : List String :=
  (detect_multiresp code_cols).flatMap (·.2)

/-! ### Missing-Value Normalizer (source lines 59–73) -/

/-- `pd.api.types.is_object_dtype`: a pandas column is `object`-typed
exactly when it holds a non-numeric Python object — a string or a tuple
(an all-numeric or all-missing column is `int64`/`float64`). -/
def isObjectDtype (cells : List Cell) : Bool :=
  cells.any fun c => match c with
    | .str _ => true
    | .tup _ => true
    | _ => false

/-- `pd.api.types.is_integer_dtype`: all cells are integers and none is
missing (a single `NaN` turns the column into `float64`). -/
def isIntegerDtype (cells : List Cell) : Bool :=
  ¬cells.isEmpty && cells.all fun c => match c with
    | .int _ => true
    | _ => false

/-- `df[col].nunique(dropna=True)`: the number of `pyEq`-distinct
non-missing cells. -/
def nuniqueDropna (cells : List Cell) : Nat :=
  ((cells.filter (fun c => !c.isMissing)).foldl
    (fun acc c => if acc.any (Cell.pyEq c) then acc else acc ++ [c]) []).length

/-- `df[col].notna().astype(int)`: present values become `1`, missing
values become `0`. -/
def binarize (cells : List Cell) : List Cell :=
  cells.map fun c => if c.isMissing then Cell.int 0 else Cell.int 1

/-- The sentinel label meaning "skipped / not applicable". -/
def sentinel : Cell := Cell.str "스킵(해당 없음)"

/-- `df[col].fillna(sentinel)`. -/
def fillSentinel (cells : List Cell) : List Cell :=
  cells.map fun c => if c.isMissing then sentinel else c

/-- Whether a column label is a member of *M* (Python's
`col in multiresp_flat`: only string labels can match the string set). -/
def nameInFlat (flat : List String) : ColName → Bool
  | .str s => flat.contains s
  | .int _ => false

/-- The binary-encode loop's effect on one column. -/
def hmBinCol (flat : List String) (c : Column) : Column :=
  if nameInFlat flat c.name then ⟨c.name, binarize c.cells⟩ else c

/-- The conditional-fill loop's effect on one column: columns of *M* and
the id column are skipped; otherwise object- or integer-typed columns
with at most 20 distinct non-missing values get the sentinel filled in. -/
def hmFillCol (flat : List String) (id_var : String) (c : Column) : Column :=
  if nameInFlat flat c.name || c.name == ColName.str id_var then c
  else if (isObjectDtype c.cells || isIntegerDtype c.cells) = true
      ∧ nuniqueDropna c.cells ≤ 20
  then ⟨c.name, fillSentinel c.cells⟩ else c

/-- `handle_missing(df, id_var)` (source lines 59–73): detect the
code/text pairs, take the multi-response groups over the pair keys and
flatten them to *M*; binarize every column of *M* to presence flags;
then fill every other object- or integer-typed column with at most 20
distinct non-missing values with the sentinel, skipping the id column.
The `KeyError` branch models `df[col]` raising when a code key of *M*
exists only as the `str()` of a non-string column label. -/
def handle_missing (t : Table) (id_var : String) : Except PdError Table :=
  let pairs := detect_pairs t.names
  let flat := multirespFlat (pairs.map (·.1))
  if flat.any (fun s => !(t.names.contains (ColName.str s))) then .error .keyError
  else .ok ⟨(t.cols.map (hmBinCol flat)).map (hmFillCol flat id_var)⟩

/-! ### Weight Calculator (source lines 77–86) -/

/-- `list(zip(*[df[c] for c in strata]))`: the per-row tuples of
strata-column values (`zip()` of no iterables is empty; otherwise `zip`
truncates to the shortest column). -/
def tableKeys (t : Table) (strata : List String) : List (List Cell) :=
  match strata with
  | [] => []
  | _ =>
    let lens := strata.map fun c => (t.cellsOfStr c).length
    let len := match lens with | [] => 0 | l :: ls => ls.foldl Nat.min l
    (List.range len).map fun i => strata.map fun c => (t.cellsOfStr c).getD i Cell.missing

/-- Pandas' matching of `__key__` tuples in `value_counts` grouping and
the `merge` joins: elementwise `nanEq`, so tuples holding `NaN` in the
same positions do match each other (the shared `np.nan` singleton makes
pandas' tuple comparison and its object hash table treat such keys as
equal). -/
def keyEq (a b : List Cell) : Bool :=
  a.length == b.length && (a.zip b).all fun p => p.1.nanEq p.2

/-- `df['__key__'].value_counts()` looked up at row `i`: the number of
rows whose key tuple compares equal to row `i`'s under the grouper's
NaN-aware equality (`keyEq` is reflexive, so every row counts itself). -/
def countKeyMatches (keys : List (List Cell)) (i : Nat) : Nat :=
  ((List.range keys.length).filter fun j =>
    keyEq (keys.getD j []) (keys.getD i [])).length

/-- `sample_share` of row `i`: its stratum's row count over `len(df)`. -/
def sampleShare (keys : List (List Cell)) (n : Nat) (i : Nat) : ℚ :=
  (countKeyMatches keys i : ℚ) / (n : ℚ)

/-- The population rows matching row `i` of the survey table, in
population order (`how='left'` merge on `__key__`, under the NaN-aware
`keyEq`: a survey row whose key holds `NaN` does match a population row
whose key holds `NaN` in the same position). -/
def popMatches (dfKeys popKeys : List (List Cell)) (i : Nat) : List Nat :=
  (List.range popKeys.length).filter fun j =>
    keyEq (popKeys.getD j []) (dfKeys.getD i [])

/-- The population-share cells joined onto row `i` by the left merge:
one `missing` cell when the key is unmatched, otherwise one cell per
matching population row. -/
def joinedPopVals (pop : Table) (dfKeys popKeys : List (List Cell))
    (pop_col : String) (i : Nat) : List Cell :=
  match popMatches dfKeys popKeys i with
  | [] => [Cell.missing]
  | js => js.map fun j => (pop.cellsOfStr pop_col).getD j Cell.missing

/-- The joined population shares after `df[pop_col].fillna(0)`. -/
def awRowPopShares (pop : Table) (dfKeys popKeys : List (List Cell))
    (pop_col : String) (i : Nat) : List Cell :=
  (joinedPopVals pop dfKeys popKeys pop_col i).map fun c =>
    if c.isMissing then Cell.int 0 else c

/-- Numeric value of a cell; `none` for strings and tuples, whose
division would raise `TypeError`. -/
def Cell.toQ : Cell → Option ℚ
  | .int n => some (n : ℚ)
  | .num q => some q
  | _ => none

/-- Whether `df[pop_col] / df['sample_share']` would raise `TypeError`
(some joined population share is not a number). -/
def awTypeErr (df pop : Table) (strata : List String) (pop_col : String) : Bool :=
  (List.range df.nrows).any fun i =>
    (awRowPopShares pop (tableKeys df strata) (tableKeys pop strata) pop_col i).any
      fun c => c.toQ.isNone

/-- Output-row multiplicity of each survey row under the left merge. -/
def awMults (df pop : Table) (strata : List String) (pop_col : String) : List Nat :=
  (List.range df.nrows).map fun i =>
    (joinedPopVals pop (tableKeys df strata) (tableKeys pop strata) pop_col i).length

/-- A survey column's cells after the merges replicated each row by its
match multiplicity. -/
def expandCells (mults : List Nat) (cells : List Cell) : List Cell :=
  (List.range mults.length).flatMap fun i =>
    List.replicate (mults.getD i 0) (cells.getD i Cell.missing)

/-- The `weight` cells produced for survey row `i`:
`population_share / sample_share` for each output row it expands to. -/
def awRowWeights (df pop : Table) (strata : List String) (pop_col : String)
    (i : Nat) : List Cell :=
  (awRowPopShares pop (tableKeys df strata) (tableKeys pop strata) pop_col i).map fun c =>
    Cell.num ((c.toQ.getD 0) / sampleShare (tableKeys df strata) df.nrows i)

/-- The `weight` column: `population_share / sample_share` per output
row. -/
def awWeights (df pop : Table) (strata : List String) (pop_col : String) : List Cell :=
  (List.range df.nrows).flatMap (awRowWeights df pop strata pop_col)

/-- The table returned by a successful `add_weights` call: the survey
columns (with the `__key__` column it gained on line 78) expanded by the
merge, plus `sample_share`, the population-share column and `weight`,
with `__key__`, `sample_share` and the population-share column dropped
again on line 86. -/
def awResult (df pop : Table) (strata : List String) (pop_col : String) : Table :=
  let dfKeys := tableKeys df strata
  let popKeys := tableKeys pop strata
  let n := df.nrows
  let mults := awMults df pop strata pop_col
  let df1 := df.setColStr "__key__" (dfKeys.map Cell.tup)
  let sampCells := (List.range n).flatMap fun i =>
    List.replicate (mults.getD i 0) (Cell.num (sampleShare dfKeys n i))
  let popCells := (List.range n).flatMap fun i => awRowPopShares pop dfKeys popKeys pop_col i
  let df3 : Table := ⟨(df1.cols.map fun c => ⟨c.name, expandCells mults c.cells⟩)
    ++ [⟨ColName.str "sample_share", sampCells⟩, ⟨ColName.str pop_col, popCells⟩]⟩
  let df4 := df3.setColStr "weight" (awWeights df pop strata pop_col)
  ⟨df4.cols.filter fun c => !(c.name == ColName.str "__key__"
    || c.name == ColName.str "sample_share" || c.name == ColName.str pop_col)⟩

/-- The observable outcome of `add_weights(df, pop_df, strata, pop_col)`:
the caller-visible state of both argument frames after the call (the
function mutates them in place on lines 78–79) and the returned table or
raised exception. -/
structure AWOut where
  dfAfter : Table
  popAfter : Table
  res : Except PdError Table

/-- `add_weights` (source lines 77–86).  Line 78 raises `KeyError` when
a strata column is absent from `df` (before any mutation) and
`ValueError` when the key list length does not match `len(df)` (only
possible with empty `strata` on a non-empty frame); then `df` gains its
`__key__` column.  Line 79 does the same for `pop_df`.  The merges then
raise `KeyError` when the population-share column is absent from
`pop_df`, or when a frame column collides with the merge scaffolding
names (pandas suffixes the overlapping columns, so the later
`df[pop_col]` / `df['sample_share']` lookups fail), and `TypeError` when
a joined population share is not a number.  Otherwise the weighted table
is returned. -/
def add_weights (df pop_df : Table) (strata : List String) (pop_col : String) : AWOut :=
  if strata.any (fun c => (df.getColStr c).isNone) then ⟨df, pop_df, .error .keyError⟩
  else if (tableKeys df strata).length ≠ df.nrows then ⟨df, pop_df, .error .valueError⟩
  else
    let df1 := df.setColStr "__key__" ((tableKeys df strata).map Cell.tup)
    if strata.any (fun c => (pop_df.getColStr c).isNone) then ⟨df1, pop_df, .error .keyError⟩
    else if (tableKeys pop_df strata).length ≠ pop_df.nrows then ⟨df1, pop_df, .error .valueError⟩
    else
      let pop1 := pop_df.setColStr "__key__" ((tableKeys pop_df strata).map Cell.tup)
      if (pop_df.getColStr pop_col).isNone then ⟨df1, pop1, .error .keyError⟩
      else if pop_col == "__key__" || pop_col == "sample_share"
          || (df1.getColStr pop_col).isSome || (df1.getColStr "sample_share").isSome then
        ⟨df1, pop1, .error .keyError⟩
      else if awTypeErr df pop_df strata pop_col then ⟨df1, pop1, .error .typeError⟩
      else ⟨df1, pop1, .ok (awResult df pop_df strata pop_col)⟩

/-! ### Label Decoder (source lines 90–107) -/

/-- The candidate names tried by the collision loop: the bare base, then
`f"{base}_{i}"` for `i = 1, 2, …`. -/
def labelCand (base : String) : Nat → String
  | 0 => base
  | i + 1 => base ++ "_" ++ toString (i + 1)

/-- `base, i = label, 1; while label in used: label = f"{base}_{i}"; i += 1`:
the first candidate not in `used`.  At most `used.length` candidates can
be blocked, so searching `used.length + 1` of them always succeeds (the
`none` fallback is unreachable; see `freshLabel_find_isSome`). -/
def freshLabel (used : List ColName) (base : String) : String :=
  match (List.range (used.length + 1)).find?
      (fun i => !(used.contains (ColName.str (labelCand base i)))) with
  | some i => labelCand base i
  | none => base

/-- One iteration of the `label_encode` loop over `pairs.items()`,
threading the current frame and the `used` name set.  A multi-response
code column is renamed to the first non-missing text value (string-ized),
or to its own name when the text column is all-missing, disambiguated
through `freshLabel`; a single-response code column has its values
overwritten by the text column's values.  Either way the text column is
then dropped. -/
def labelStep (flat : List String) (st : Table × List ColName)
    (pair : String × ColName) : Except PdError (Table × List ColName) :=
  let t := st.1
  let used := st.2
  let code_col := pair.1
  let text_col := pair.2
  match t.getColObj text_col with
  | none => .error .keyError
  | some tc =>
    if flat.contains code_col then
      let labels := (tc.cells.filter (fun c => !c.isMissing)).map Cell.pyStr
      let base := labels.headD code_col
      let label := freshLabel used base
      let t1 := t.renameStr code_col label
      (t1.dropObj text_col).map (fun t2 => (t2, used ++ [ColName.str label]))
    else
      let t1 := t.setColStr code_col tc.cells
      (t1.dropObj text_col).map (fun t2 => (t2, used))

/-- `label_encode(df, id_var)` (source lines 90–107): recompute the
pairs and the multi-response members over the current columns, seed the
used-name set with `set(df.columns)`, and process every code/text pair
in detection order. -/
def label_encode (t : Table) (id_var : String) : Except PdError Table :=
  let pairs := detect_pairs t.names
  let flat := multirespFlat (pairs.map (·.1))
  (pairs.foldlM (labelStep flat) (t, t.names)).map (·.1)

/-! ### Codebook Builder (not present in the source file; the app only
ships the tidy/zip exporter `tidy_zip`) -/

/-- Distinct (by Python `==`) cell pairs, keeping first occurrences in
order, as `drop_duplicates` does. -/
def distinctPairs (ps : List (Cell × Cell)) : List (Cell × Cell) :=
  ps.foldl (fun acc p =>
    if acc.any (fun q => q.1.pyEq p.1 && q.2.pyEq p.2) then acc else acc ++ [p]) []

/-- A codebook row: (variable name, code value, label text). -/
structure CodebookRow where
  varName : String
  codeValue : Cell
  textValue : Cell

/-- Modelled from the spec: `build_codebook(original_table)` is described
in §4.5 of the specification but has no counterpart in the source file
(only the tidy/zip exporter exists).  Per the spec's words: for each
detected code/text pair, emit one row per distinct non-missing
(code value, text value) pair observed in the original, undecoded table,
with the code column's name as the variable; then, for every
multi-response code column that has no text pairing (multi-response
groups taken over all column names, §4.1's "no-pairs case"), emit exactly
one synthetic row `(variable, 1, "Selected")`.  Row order: pairs in
detection order, then synthetic rows in detection order. -/
def build_codebook (t : Table) : List CodebookRow :=
  let pairs := detect_pairs t.names
  let pairRows := pairs.flatMap fun p =>
    let codeCells := t.cellsOfStr p.1
    let textCells := ((t.getColObj p.2).map (·.cells)).getD []
    let observed := (codeCells.zip textCells).filter
      (fun q => !q.1.isMissing && !q.2.isMissing)
    (distinctPairs observed).map fun q =>
      { varName := p.1, codeValue := q.1, textValue := q.2 }
  let mrAll := multirespFlat (t.names.map ColName.pyStr)
  let unpaired := mrAll.filter fun m => !(pairs.map (·.1)).contains m
  pairRows ++ unpaired.map fun m =>
    { varName := m, codeValue := Cell.int 1, textValue := Cell.str "Selected" }

/-! ### Concrete instance tables used by the claim theorems -/

/-- The spec §8 scenario table: columns `[id, Q1, Q1(TEXT), Q2_1, Q2_2]`
with one row `id="1001"`, `Q1="3"`, `Q1(TEXT)="Agree"`, `Q2_1` present,
`Q2_2` missing. -/
def tScenario : Table := ⟨[
  ⟨ColName.str "id", [Cell.str "1001"]⟩,
  ⟨ColName.str "Q1", [Cell.str "3"]⟩,
  ⟨ColName.str "Q1(TEXT)", [Cell.str "Agree"]⟩,
  ⟨ColName.str "Q2_1", [Cell.str "Y"]⟩,
  ⟨ColName.str "Q2_2", [Cell.missing]⟩]⟩

/-- The §8 scenario with the text partners `Q2_1(TEXT)`, `Q2_2(TEXT)`
added, which is what makes `Q2_1`/`Q2_2` detectable as a multi-response
group. -/
def tScenarioPaired : Table := ⟨[
  ⟨ColName.str "id", [Cell.str "1001"]⟩,
  ⟨ColName.str "Q2_1", [Cell.str "Y"]⟩,
  ⟨ColName.str "Q2_1(TEXT)", [Cell.str "OptA"]⟩,
  ⟨ColName.str "Q2_2", [Cell.missing]⟩,
  ⟨ColName.str "Q2_2(TEXT)", [Cell.missing]⟩]⟩

/-- A table with a detected multi-response group `{A_1, A_2}` in which
`A_1` has a missing value (so binarization writes a `0` that a second
`handle_missing` run flips to `1`). -/
def tTwice : Table := ⟨[
  ⟨ColName.str "A_1", [Cell.missing]⟩,
  ⟨ColName.str "A_1(TEXT)", [Cell.missing]⟩,
  ⟨ColName.str "A_2", [Cell.int 5]⟩,
  ⟨ColName.str "A_2(TEXT)", [Cell.str "x"]⟩]⟩

/-- A multi-response table whose text columns are entirely missing, so
`label_encode` falls back to the code columns' own names. -/
def tFallback : Table := ⟨[
  ⟨ColName.str "A_1", [Cell.int 1]⟩,
  ⟨ColName.str "A_1(TEXT)", [Cell.missing]⟩,
  ⟨ColName.str "A_2", [Cell.missing]⟩,
  ⟨ColName.str "A_2(TEXT)", [Cell.missing]⟩]⟩

/-- A table whose only column is a `(TEXT)` column with no code partner:
`detect_pairs` finds nothing and `label_encode` passes it through. -/
def tOrphan : Table := ⟨[⟨ColName.str "X(TEXT)", [Cell.str "hi"]⟩]⟩

/-- A one-row survey table with a single stratification column. -/
def dfSurvey : Table := ⟨[⟨ColName.str "region", [Cell.str "A"]⟩]⟩

/-- A population reference matching `dfSurvey` on `region="A"` with
population share `0.6`. -/
def popRef : Table := ⟨[
  ⟨ColName.str "region", [Cell.str "A"]⟩,
  ⟨ColName.str "pop_share", [Cell.num (6/10)]⟩]⟩

/-- A population reference lacking the `region` strata column. -/
def popNoRegion : Table := ⟨[⟨ColName.str "pop_share", [Cell.num (6/10)]⟩]⟩

/-- A population reference with the key `region="A"` duplicated (two
rows share the stratum), which multiplies survey rows in the left merge. -/
def popDup : Table := ⟨[
  ⟨ColName.str "region", [Cell.str "A", Cell.str "A"]⟩,
  ⟨ColName.str "pop_share", [Cell.num (3/10), Cell.num (3/10)]⟩]⟩

/-- A survey table whose row's stratum `region="Z"` has no match in
`popRef`. -/
def dfUnmatched : Table := ⟨[⟨ColName.str "region", [Cell.str "Z"]⟩]⟩

/-- A 0-row survey frame (used by the empty-strata success case). -/
def dfEmptyRows : Table := ⟨[⟨ColName.str "x", []⟩]⟩

/-- A 0-row population frame carrying only the population-share column. -/
def popEmptyRows : Table := ⟨[⟨ColName.str "pop_share", []⟩]⟩

/-! ### Hypothesis predicates used by the claim theorems -/

/-- Every detected multi-response member column of `t` has no missing
cell (the condition under which `handle_missing` is idempotent). -/
def mrColsNoMissing (t : Table) : Bool :=
  let flat := multirespFlat ((detect_pairs t.names).map (·.1))
  t.cols.all fun c =>
    !(nameInFlat flat c.name) || c.cells.all (fun x => !x.isMissing)

/-- All column labels of `t` are strings. -/
def namesAreStrings (t : Table) : Bool :=
  t.cols.all fun c => match c.name with | .str _ => true | .int _ => false

/-- No column label ends in a doubled `"(TEXT)(TEXT)"` suffix (such a
label would make one pair's code column another pair's text column). -/
def noDoubleText (t : Table) : Bool :=
  t.cols.all fun c => !(strEndsWith c.name.pyStr "(TEXT)(TEXT)")

/-- The reserved names used by `add_weights`' merge scaffolding are
absent from the survey frame and the population-share column is not one
of them. -/
def awCleanNames (df : Table) (pop_col : String) : Bool :=
  !(df.names.contains (ColName.str "__key__"))
    && !(df.names.contains (ColName.str "sample_share"))
    && !(df.names.contains (ColName.str pop_col))
    && !(df.names.contains (ColName.str "weight"))
    && !(pop_col == "__key__") && !(pop_col == "sample_share") && !(pop_col == "weight")

/-! ## Claim theorems -/

/-- Claim C1, counterexample: on the spec §8 scenario table
`[id, Q1, Q1(TEXT), Q2_1, Q2_2]`, `handle_missing` does **not** return
`Q2_1 = 1` and `Q2_2 = 0`: `Q2_1`/`Q2_2` have no `(TEXT)` partners, the
multi-response groups are computed over the pair keys only (here just
`Q1`, which has no underscore), so nothing is binarized. -/
theorem claim1_counterexample :
    ¬ ∃ out, handle_missing tScenario "id" = Except.ok out
      ∧ out.cellsOfStr "Q2_1" = [Cell.int 1]
      ∧ out.cellsOfStr "Q2_2" = [Cell.int 0] := by
  rintro ⟨out, hout, h1, h2⟩
  have h : handle_missing tScenario "id" = Except.ok tScenario := rfl
  rw [h] at hout
  obtain rfl : tScenario = out := by injection hout
  have h3 : tScenario.cellsOfStr "Q2_2" = [Cell.missing] := rfl
  rw [h3] at h2
  simp at h2

/-- Claim C1, amended: on the §8 scenario table `handle_missing` is the
identity (`Q2_1` keeps its value and `Q2_2` stays missing), because
`Q2_1`/`Q2_2` have no `(TEXT)` partners and multi-response detection
runs over the code/text pair keys only; when the text partners
`Q2_1(TEXT)`, `Q2_2(TEXT)` are present, the group is detected and
binarization yields `Q2_1 = 1`, `Q2_2 = 0`. -/
theorem claim1_amended :
    handle_missing tScenario "id" = Except.ok tScenario
    ∧ ∃ out, handle_missing tScenarioPaired "id" = Except.ok out
      ∧ out.cellsOfStr "Q2_1" = [Cell.int 1]
      ∧ out.cellsOfStr "Q2_2" = [Cell.int 0] :=
  ⟨rfl, ⟨_, rfl, rfl, rfl⟩⟩

/-! Helper lemmas about the missing-value normalizer -/

@[simp] theorem Cell.isMissing_str (s : String) : (Cell.str s).isMissing = false := rfl

@[simp] theorem Cell.isMissing_int (n : Int) : (Cell.int n).isMissing = false := rfl

@[simp] theorem Cell.isMissing_num (q : ℚ) : (Cell.num q).isMissing = false := rfl

@[simp] theorem Cell.isMissing_missing : (Cell.missing).isMissing = true := rfl

@[simp] theorem Cell.isMissing_tup (l : List Cell) : (Cell.tup l).isMissing = false := rfl

theorem binarize_noMissing (cells : List Cell) :
    (binarize cells).all (fun x => !x.isMissing) = true := by
  rw [List.all_eq_true]
  intro x hx
  rw [binarize, List.mem_map] at hx
  obtain ⟨y, _, rfl⟩ := hx
  cases hy : y.isMissing <;> simp [hy]

theorem binarize_idem_of_noMissing (cells : List Cell)
    (h : cells.all (fun x => !x.isMissing) = true) :
    binarize (binarize cells) = binarize cells := by
  unfold binarize
  rw [List.map_map]
  apply List.map_congr_left
  intro x hx
  rw [List.all_eq_true] at h
  have hxm : x.isMissing = false := by simpa using h x hx
  simp [Function.comp, hxm]

theorem fillSentinel_of_noMissing (cells : List Cell)
    (h : cells.all (fun x => !x.isMissing) = true) : fillSentinel cells = cells := by
  unfold fillSentinel
  rw [List.all_eq_true] at h
  have hc : ∀ x ∈ cells, (if x.isMissing then sentinel else x) = x := by
    intro x hx
    have hxm : x.isMissing = false := by simpa using h x hx
    simp [hxm]
  rw [List.map_congr_left hc]
  simp

theorem fillSentinel_noMissing (cells : List Cell) :
    (fillSentinel cells).all (fun x => !x.isMissing) = true := by
  rw [List.all_eq_true]
  intro x hx
  rw [fillSentinel, List.mem_map] at hx
  obtain ⟨y, _, rfl⟩ := hx
  cases hy : y.isMissing <;> simp [hy, sentinel]

theorem hmBinCol_name (flat : List String) (c : Column) :
    (hmBinCol flat c).name = c.name := by
  unfold hmBinCol; split <;> rfl

theorem hmFillCol_name (flat : List String) (id_var : String) (c : Column) :
    (hmFillCol flat id_var c).name = c.name := by
  unfold hmFillCol; split
  · rfl
  · split <;> rfl

/-- One column's processing by `handle_missing` is idempotent when
multi-response members carry no missing values. -/
theorem hmStep_idem (flat : List String) (id_var : String) (c : Column)
    (hc : (!(nameInFlat flat c.name) || c.cells.all (fun x => !x.isMissing)) = true) :
    hmFillCol flat id_var (hmBinCol flat (hmFillCol flat id_var (hmBinCol flat c)))
      = hmFillCol flat id_var (hmBinCol flat c) := by
  by_cases hf : nameInFlat flat c.name = true
  · have hnm : c.cells.all (fun x => !x.isMissing) = true := by
      simpa [hf] using hc
    have hb : hmBinCol flat c = ⟨c.name, binarize c.cells⟩ := by
      unfold hmBinCol; rw [if_pos hf]
    have hfi : ∀ cs : List Cell, hmFillCol flat id_var ⟨c.name, cs⟩ = ⟨c.name, cs⟩ := by
      intro cs; unfold hmFillCol; rw [if_pos]; simp [hf]
    have hb2 : hmBinCol flat ⟨c.name, binarize c.cells⟩
        = ⟨c.name, binarize (binarize c.cells)⟩ := by
      unfold hmBinCol; rw [if_pos hf]
    rw [hb, hfi, hb2, binarize_idem_of_noMissing c.cells hnm, hfi]
  · have hb : ∀ d : Column, d.name = c.name → hmBinCol flat d = d := by
      intro d hd; unfold hmBinCol; rw [if_neg]; simp [hd, hf]
    rw [hb c rfl]
    by_cases hid : (c.name == ColName.str id_var) = true
    · have hfi : hmFillCol flat id_var c = c := by
        unfold hmFillCol; rw [if_pos]; simp [hid]
      rw [hfi, hb c rfl, hfi]
    · by_cases hcond : (isObjectDtype c.cells || isIntegerDtype c.cells) = true
          ∧ nuniqueDropna c.cells ≤ 20
      · have hfi : hmFillCol flat id_var c = ⟨c.name, fillSentinel c.cells⟩ := by
          unfold hmFillCol; rw [if_neg, if_pos hcond]; simp [hf, hid]
        rw [hfi, hb ⟨c.name, fillSentinel c.cells⟩ rfl]
        unfold hmFillCol
        rw [if_neg]
        · split
          · exact congrArg _ (fillSentinel_of_noMissing _ (fillSentinel_noMissing c.cells))
          · rfl
        · simp [hf, hid]
      · have hfi : hmFillCol flat id_var c = c := by
          unfold hmFillCol; rw [if_neg, if_neg hcond]; simp [hf, hid]
        rw [hfi, hb c rfl, hfi]

/-- Claim C2, counterexample: `handle_missing` is not idempotent.  On
`tTwice` the first run binarizes the missing `A_1` cell to `0`; the
second run sees a present `0` and turns it into `1`. -/
theorem claim2_counterexample :
    ¬ ((handle_missing tTwice "id").bind (fun u => handle_missing u "id")
        = handle_missing tTwice "id") := by
  intro h
  have h1 : ((handle_missing tTwice "id").bind (fun u => handle_missing u "id")).map
      (fun t => t.cellsOfStr "A_1") = Except.ok [Cell.int 1] := rfl
  rw [h] at h1
  have h2 : (handle_missing tTwice "id").map (fun t => t.cellsOfStr "A_1")
      = Except.ok [Cell.int 0] := rfl
  rw [h1] at h2
  simp at h2

/-- Claim C2, amended: `handle_missing` is idempotent on tables whose
detected multi-response member columns contain no missing values (the
general claim fails because binarization maps a previously-missing `0`
back to `1`, see the counterexample). -/
theorem claim2_amended (t : Table) (id_var : String)
    (h : mrColsNoMissing t = true) :
    (handle_missing t id_var).bind (fun u => handle_missing u id_var)
      = handle_missing t id_var := by
  have hdef : ∀ (u : Table), handle_missing u id_var =
      (if ((multirespFlat ((detect_pairs u.names).map (·.1))).any
          (fun s => !(u.names.contains (ColName.str s)))) = true
       then Except.error PdError.keyError
       else Except.ok ⟨(u.cols.map
          (hmBinCol (multirespFlat ((detect_pairs u.names).map (·.1))))).map
          (hmFillCol (multirespFlat ((detect_pairs u.names).map (·.1))) id_var)⟩) :=
    fun _ => rfl
  by_cases herr : ((multirespFlat ((detect_pairs t.names).map (·.1))).any
      (fun s => !(t.names.contains (ColName.str s)))) = true
  · rw [hdef t, if_pos herr]
    rfl
  · rw [hdef t, if_neg herr]
    show handle_missing ⟨(t.cols.map
        (hmBinCol (multirespFlat ((detect_pairs t.names).map (·.1))))).map
        (hmFillCol (multirespFlat ((detect_pairs t.names).map (·.1))) id_var)⟩ id_var
      = Except.ok ⟨(t.cols.map
        (hmBinCol (multirespFlat ((detect_pairs t.names).map (·.1))))).map
        (hmFillCol (multirespFlat ((detect_pairs t.names).map (·.1))) id_var)⟩
    have hnames : (⟨(t.cols.map
        (hmBinCol (multirespFlat ((detect_pairs t.names).map (·.1))))).map
        (hmFillCol (multirespFlat ((detect_pairs t.names).map (·.1))) id_var)⟩ : Table).names
        = t.names := by
      show ((t.cols.map _).map _).map Column.name = t.cols.map Column.name
      rw [List.map_map, List.map_map]
      apply List.map_congr_left
      intro c _
      show (hmFillCol _ id_var (hmBinCol _ c)).name = c.name
      rw [hmFillCol_name, hmBinCol_name]
    rw [hdef, hnames, if_neg herr]
    simp only [Except.ok.injEq, Table.mk.injEq]
    show ((((t.cols.map _).map _).map _).map _) = (t.cols.map _).map _
    rw [List.map_map, List.map_map, List.map_map, List.map_map]
    apply List.map_congr_left
    intro c hc
    show hmFillCol _ id_var (hmBinCol _ (hmFillCol _ id_var (hmBinCol _ c)))
      = hmFillCol _ id_var (hmBinCol _ c)
    apply hmStep_idem
    have hall : t.cols.all (fun c =>
        !(nameInFlat (multirespFlat ((detect_pairs t.names).map (·.1))) c.name)
          || c.cells.all (fun x => !x.isMissing)) = true := h
    rw [List.all_eq_true] at hall
    exact hall c hc

/-- Claim C2, amended, witness: the idempotence theorem applied to the
§8 scenario table, which has no detected multi-response member with a
missing value. -/
theorem claim2_witness :
    mrColsNoMissing tScenario = true
    ∧ (handle_missing tScenario "id").bind (fun u => handle_missing u "id")
        = handle_missing tScenario "id" :=
  ⟨by decide, claim2_amended tScenario "id" (by decide)⟩


/-! Helper lemmas about the weight calculator -/

theorem foldl_min_const (l : List Nat) (v : Nat) (h : ∀ x ∈ l, x = v) :
    l.foldl Nat.min v = v := by
  induction l with
  | nil => rfl
  | cons a as ih =>
    have ha : a = v := h a (by simp)
    have hmin : Nat.min v v = v := min_self v
    rw [List.foldl_cons, ha, hmin]
    exact ih (fun x hx => h x (by simp [hx]))

theorem cellsOfStr_length (t : Table) (c : String) (hwf : t.wfLens = true)
    (hp : (t.getColStr c).isSome = true) : (t.cellsOfStr c).length = t.nrows := by
  obtain ⟨col, hcol⟩ := Option.isSome_iff_exists.mp hp
  have hmem : col ∈ t.cols := List.mem_of_find?_eq_some hcol
  have hlen : (col.cells.length == t.nrows) = true := by
    rw [Table.wfLens, List.all_eq_true] at hwf
    exact hwf col hmem
  rw [Table.cellsOfStr, hcol]
  simpa using hlen

theorem tableKeys_length (t : Table) (strata : List String) (hne : strata ≠ [])
    (hwf : t.wfLens = true) (hp : ∀ c ∈ strata, (t.getColStr c).isSome = true) :
    (tableKeys t strata).length = t.nrows := by
  match strata, hne with
  | s :: ss, _ =>
    show ((List.range _).map _).length = t.nrows
    rw [List.length_map, List.length_range]
    show (match (s :: ss).map (fun c => (t.cellsOfStr c).length) with
      | [] => 0 | l :: ls => ls.foldl Nat.min l) = t.nrows
    rw [List.map_cons]
    show (((ss).map (fun c => (t.cellsOfStr c).length)).foldl Nat.min
      ((t.cellsOfStr s).length)) = t.nrows
    rw [cellsOfStr_length t s hwf (hp s (by simp))]
    apply foldl_min_const
    intro x hx
    rw [List.mem_map] at hx
    obtain ⟨c, hc, rfl⟩ := hx
    exact cellsOfStr_length t c hwf (hp c (by simp [hc]))

/-- Claim C5, amended: `add_weights` does raise an error whenever a
strata entry is absent, but not always before mutating: (a) an entry
absent from the survey table raises `KeyError` with both frames
untouched; (b) an entry present in the survey table but absent from the
population reference raises only after the survey table has already
gained its `__key__` column; (c) with empty `strata_columns` and both
frames empty the operation runs to completion instead of failing. -/
theorem claim5_amended :
    (∀ (df pop : Table) (strata : List String) (pop_col : String),
      strata.any (fun c => (df.getColStr c).isNone) = true →
        add_weights df pop strata pop_col = ⟨df, pop, .error .keyError⟩)
    ∧ (∀ (df pop : Table) (strata : List String) (pop_col : String),
      strata.any (fun c => (df.getColStr c).isNone) = false →
      (tableKeys df strata).length = df.nrows →
      strata.any (fun c => (pop.getColStr c).isNone) = true →
        add_weights df pop strata pop_col
          = ⟨df.setColStr "__key__" ((tableKeys df strata).map Cell.tup), pop,
             .error .keyError⟩)
    ∧ (add_weights dfEmptyRows popEmptyRows [] "pop_share").res.isOk = true := by
  refine ⟨?_, ?_, ?_⟩
  · intro df pop strata pop_col h
    simp only [add_weights]
    rw [if_pos h]
  · intro df pop strata pop_col h1 h2 h3
    simp only [add_weights]
    rw [if_neg (by simp [h1]), if_neg (not_ne_iff.mpr h2), if_pos h3]
  · rfl

/-- Claim C5, counterexample: a strata column absent only from the
population reference — the claim says the operation fails *before
mutating any table*, yet the survey frame has already gained a
`__key__` column when the error is raised. -/
theorem claim5_counterexample :
    (add_weights dfSurvey popNoRegion ["region"] "pop_share").res
        = Except.error PdError.keyError
    ∧ (add_weights dfSurvey popNoRegion ["region"] "pop_share").dfAfter.names
        ≠ dfSurvey.names := by
  exact ⟨rfl, by decide⟩

/-- Claim C5, amended, witness: part (b) of the amended theorem applied
to the concrete survey/population pair. -/
theorem claim5_witness :
    add_weights dfSurvey popNoRegion ["region"] "pop_share"
      = ⟨dfSurvey.setColStr "__key__" ((tableKeys dfSurvey ["region"]).map Cell.tup),
         popNoRegion, .error .keyError⟩ :=
  claim5_amended.2.1 dfSurvey popNoRegion ["region"] "pop_share" rfl rfl rfl

/-! Euclidean property and reflexivity of the NaN-aware key equality
(two cells equal to a third are equal to each other; every cell matches
itself), proved by strong induction on sizes. -/

theorem nanEq_euc_all : ∀ (n : Nat),
    (∀ (a b c : Cell), sizeOf a + sizeOf b + sizeOf c ≤ n →
      Cell.nanEq a c = true → Cell.nanEq b c = true → Cell.nanEq a b = true)
    ∧ (∀ (as bs cs : List Cell), sizeOf as + sizeOf bs + sizeOf cs ≤ n →
      Cell.nanEqList as cs = true → Cell.nanEqList bs cs = true →
      Cell.nanEqList as bs = true) := by
  intro n
  induction n using Nat.strong_induction_on with
  | _ n ih =>
    constructor
    · intro a b c hle h1 h2
      cases a <;> cases c <;> simp [Cell.nanEq] at h1
      all_goals cases b <;> simp [Cell.nanEq] at h2 ⊢
      all_goals first
        | exact h1.trans h2.symm
        | exact_mod_cast h1.trans h2.symm
        | (rw [h2]; exact_mod_cast h1)
        | (rw [h2]; exact h1)
        | (rw [h1]; exact h2.symm)
        | (rw [h1]; exact_mod_cast h2.symm)
        | (refine (ih _ ?_).2 _ _ _ le_rfl h1 h2
           simp only [Cell.tup.sizeOf_spec] at hle
           omega)
    · intro as bs cs hle h1 h2
      cases as <;> cases cs <;> simp [Cell.nanEqList] at h1
      all_goals cases bs <;> simp [Cell.nanEqList] at h2 ⊢
      all_goals (try exact h2)
      case cons.cons.cons a as c cs b bs =>
        refine ⟨(ih _ ?_).1 a b c le_rfl h1.1 h2.1,
          (ih _ ?_).2 as bs cs le_rfl h1.2 h2.2⟩
        · simp only [List.cons.sizeOf_spec] at hle
          omega
        · simp only [List.cons.sizeOf_spec] at hle
          omega

theorem nanEq_refl_all : ∀ (n : Nat),
    (∀ a : Cell, sizeOf a ≤ n → Cell.nanEq a a = true)
    ∧ (∀ as : List Cell, sizeOf as ≤ n → Cell.nanEqList as as = true) := by
  intro n
  induction n using Nat.strong_induction_on with
  | _ n ih =>
    constructor
    · intro a hle
      cases a <;> simp [Cell.nanEq]
      case tup l =>
        refine (ih (sizeOf l) ?_).2 l le_rfl
        simp only [Cell.tup.sizeOf_spec] at hle
        omega
    · intro as hle
      cases as with
      | nil => rfl
      | cons a as =>
        have hs : sizeOf (a :: as) = 1 + sizeOf a + sizeOf as := by
          simp only [List.cons.sizeOf_spec]
        have h1 : Cell.nanEq a a = true :=
          (ih (sizeOf a) (by omega)).1 a le_rfl
        have h2 : Cell.nanEqList as as = true :=
          (ih (sizeOf as) (by omega)).2 as le_rfl
        show (Cell.nanEq a a && Cell.nanEqList as as) = true
        rw [h1, h2]
        rfl

/-- `keyEq` coincides with elementwise NaN-aware tuple equality. -/
theorem keyEq_eq_nanEqList (a b : List Cell) : keyEq a b = Cell.nanEqList a b := by
  induction a generalizing b with
  | nil =>
    cases b with
    | nil => rfl
    | cons y ys => rfl
  | cons x xs ih =>
    cases b with
    | nil => rfl
    | cons y ys =>
      show ((xs.length + 1 == ys.length + 1)
        && ((x, y) :: xs.zip ys).all (fun p => p.1.nanEq p.2)) = _
      rw [List.all_cons]
      show (_ && (x.nanEq y && (xs.zip ys).all (fun p => p.1.nanEq p.2))) = _
      rw [show Cell.nanEqList (x :: xs) (y :: ys) = (x.nanEq y && Cell.nanEqList xs ys)
        from rfl, ← ih ys, keyEq]
      cases hxy : x.nanEq y <;> cases hl : (xs.length == ys.length) <;>
        cases hz : (xs.zip ys).all (fun p => p.1.nanEq p.2) <;> simp_all

theorem keyEq_refl (a : List Cell) : keyEq a a = true := by
  rw [keyEq_eq_nanEqList]
  exact (nanEq_refl_all (sizeOf a)).2 a le_rfl

theorem keyEq_euc (a b c : List Cell) (h1 : keyEq a c = true) (h2 : keyEq b c = true) :
    keyEq a b = true := by
  rw [keyEq_eq_nanEqList] at *
  exact (nanEq_euc_all (sizeOf a + sizeOf b + sizeOf c)).2 a b c le_rfl h1 h2

/-- The NaN-aware merge matching at work: a survey row whose key tuple
holds `NaN` matches a population row whose key tuple holds `NaN` in the
same position (it is not classified as unmatched). -/
theorem popMatches_nan_key :
    popMatches [[Cell.str "A", Cell.missing]] [[Cell.str "A", Cell.missing]] 0 = [0]
    ∧ keyEq [Cell.str "A", Cell.missing] [Cell.str "A", Cell.missing] = true := by decide

/-- Claim C8: the division defining the weight never divides by zero —
every row's `sample_share` is strictly positive, because the row's
stratum count includes the row itself. -/
theorem claim8_theorem (df : Table) (strata : List String) (i : Nat)
    (hwf : df.wfLens = true) (hne : strata ≠ [])
    (hp : ∀ c ∈ strata, (df.getColStr c).isSome = true)
    (hi : i < df.nrows) :
    0 < sampleShare (tableKeys df strata) df.nrows i := by
  have hlen : (tableKeys df strata).length = df.nrows :=
    tableKeys_length df strata hne hwf hp
  rw [sampleShare]
  apply div_pos
  · have hcount : 0 < countKeyMatches (tableKeys df strata) i := by
      rw [countKeyMatches]
      apply List.length_pos_of_mem (a := i)
      rw [List.mem_filter]
      refine ⟨?_, keyEq_refl _⟩
      rw [List.mem_range, hlen]
      exact hi
    exact_mod_cast hcount
  · have : 0 < df.nrows := Nat.lt_of_le_of_lt (Nat.zero_le i) hi
    exact_mod_cast this

/-- Claim C8, witness: positivity of `sample_share` on the concrete
one-row survey table. -/
theorem claim8_witness :
    dfSurvey.wfLens = true ∧ 0 < sampleShare (tableKeys dfSurvey ["region"]) dfSurvey.nrows 0 :=
  ⟨by decide, claim8_theorem dfSurvey ["region"] 0 (by decide) (by decide)
    (by decide) (by decide)⟩

theorem filter_map_eq_of (l : List Column) (f : Column → Column) (p : Column → Bool)
    (h1 : ∀ c, p (f c) = p c) (h2 : ∀ c, p c = true → f c = c) :
    (l.map f).filter p = l.filter p := by
  induction l with
  | nil => rfl
  | cons a as ih =>
    rw [List.map_cons, List.filter_cons, List.filter_cons, h1 a]
    by_cases hp : p a = true
    · rw [if_pos hp, if_pos hp, h2 a hp, ih]
    · have hpf : p a = false := by simpa using hp
      rw [hpf]
      simpa using ih

/-- Apart from the column named `s` itself, `df[s] = cells` preserves
every column (names, values and order). -/
theorem setColStr_filter (t : Table) (s : String) (cs : List Cell) :
    ((t.setColStr s cs).cols.filter (fun c => !(c.name == ColName.str s)))
      = t.cols.filter (fun c => !(c.name == ColName.str s)) := by
  rw [Table.setColStr]
  split
  · apply filter_map_eq_of
    · intro c
      by_cases hc : (c.name == ColName.str s) = true
      · rw [if_pos hc]
      · rw [if_neg hc]
    · intro c hc
      rw [if_neg]
      intro hcon
      rw [hcon] at hc
      simp at hc
  · rw [List.filter_append]
    simp

/-- Claim C9, counterexample: a successful `add_weights` call mutates
both of its argument frames — each gains a `__key__` column. -/
theorem claim9_counterexample :
    (add_weights dfSurvey popRef ["region"] "pop_share").res.isOk = true
    ∧ (add_weights dfSurvey popRef ["region"] "pop_share").dfAfter.names ≠ dfSurvey.names
    ∧ (add_weights dfSurvey popRef ["region"] "pop_share").popAfter.names ≠ popRef.names :=
  ⟨rfl, by decide, by decide⟩

/-- Claim C9, amended: `add_weights` returns a fresh table value, but it
mutates both inputs in place: whenever the strata lookups on a frame
succeed, that frame ends the call with a `__key__` column assigned
(appended, or overwritten if present); all its other columns keep their
names, values and order. -/
theorem claim9_amended (df pop : Table) (strata : List String) (pop_col : String)
    (h1 : strata.any (fun c => (df.getColStr c).isNone) = false)
    (h2 : (tableKeys df strata).length = df.nrows)
    (h3 : strata.any (fun c => (pop.getColStr c).isNone) = false)
    (h4 : (tableKeys pop strata).length = pop.nrows) :
    (add_weights df pop strata pop_col).dfAfter
        = df.setColStr "__key__" ((tableKeys df strata).map Cell.tup)
    ∧ (add_weights df pop strata pop_col).popAfter
        = pop.setColStr "__key__" ((tableKeys pop strata).map Cell.tup)
    ∧ ((add_weights df pop strata pop_col).dfAfter.cols.filter
        (fun c => !(c.name == ColName.str "__key__")))
        = df.cols.filter (fun c => !(c.name == ColName.str "__key__"))
    ∧ ((add_weights df pop strata pop_col).popAfter.cols.filter
        (fun c => !(c.name == ColName.str "__key__")))
        = pop.cols.filter (fun c => !(c.name == ColName.str "__key__")) := by
  have hmain : (add_weights df pop strata pop_col).dfAfter
        = df.setColStr "__key__" ((tableKeys df strata).map Cell.tup)
      ∧ (add_weights df pop strata pop_col).popAfter
        = pop.setColStr "__key__" ((tableKeys pop strata).map Cell.tup) := by
    simp only [add_weights]
    rw [if_neg (by simp [h1]), if_neg (not_ne_iff.mpr h2),
      if_neg (by simp [h3]), if_neg (not_ne_iff.mpr h4)]
    split_ifs <;> exact ⟨rfl, rfl⟩
  refine ⟨hmain.1, hmain.2, ?_, ?_⟩
  · rw [hmain.1]; exact setColStr_filter df "__key__" _
  · rw [hmain.2]; exact setColStr_filter pop "__key__" _

/-- Claim C9, amended, witness: the mutation characterization applied to
the concrete matched survey/population pair. -/
theorem claim9_witness :
    (add_weights dfSurvey popRef ["region"] "pop_share").dfAfter
      = dfSurvey.setColStr "__key__" ((tableKeys dfSurvey ["region"]).map Cell.tup) :=
  (claim9_amended dfSurvey popRef ["region"] "pop_share" rfl rfl rfl rfl).1

/-- A successful `add_weights` call returns exactly `awResult`. -/
theorem res_ok_awResult (df pop : Table) (strata : List String) (pop_col : String)
    (out : Table) (h : (add_weights df pop strata pop_col).res = Except.ok out) :
    out = awResult df pop strata pop_col := by
  simp only [add_weights] at h
  split_ifs at h <;> simp_all

theorem mem_setColStr (t : Table) (s : String) (cs : List Cell) :
    (⟨ColName.str s, cs⟩ : Column) ∈ (t.setColStr s cs).cols := by
  rw [Table.setColStr]
  split
  · next hsome =>
    obtain ⟨col, hcol⟩ := Option.isSome_iff_exists.mp hsome
    have hmem : col ∈ t.cols := List.mem_of_find?_eq_some hcol
    rw [Table.getColStr] at hcol
    have hname0 := List.find?_some hcol
    have hname : (col.name == ColName.str s) = true := by simpa using hname0
    have heq : (⟨ColName.str s, cs⟩ : Column)
        = (fun c => if c.name == ColName.str s then (⟨c.name, cs⟩ : Column) else c) col := by
      show _ = if col.name == ColName.str s then (⟨col.name, cs⟩ : Column) else col
      rw [if_pos hname]
      have : col.name = ColName.str s := by simpa using hname
      rw [this]
    rw [heq]
    exact List.mem_map_of_mem _ hmem
  · simp

/-- Claim C6: a survey row whose strata key has no match in the
population reference receives population-share 0 after the fill and
therefore the numeric weight `0` — not a missing value — in the `weight`
column of the result.  "No match" is judged by the NaN-aware `keyEq`
(via `popMatches`), so a `NaN`-keyed survey row facing a `NaN`-keyed
population row counts as matched, exactly as pandas matches it. -/
theorem claim6_theorem (df pop : Table) (strata : List String) (pop_col : String)
    (out : Table) (h : (add_weights df pop strata pop_col).res = Except.ok out)
    (hw : pop_col ≠ "weight") (i : Nat) (hi : i < df.nrows)
    (hun : popMatches (tableKeys df strata) (tableKeys pop strata) i = []) :
    awRowWeights df pop strata pop_col i = [Cell.num 0]
    ∧ (⟨ColName.str "weight", awWeights df pop strata pop_col⟩ : Column) ∈ out.cols := by
  constructor
  · rw [awRowWeights, awRowPopShares, joinedPopVals, hun]
    simp [Cell.toQ, zero_div]
  · have hout : out = awResult df pop strata pop_col :=
      res_ok_awResult df pop strata pop_col out h
    rw [hout]
    simp only [awResult]
    rw [List.mem_filter]
    refine ⟨mem_setColStr _ _ _, ?_⟩
    simp [Ne.symm hw]

/-- Claim C6, witness: the concrete unmatched row `region="Z"` gets the
numeric weight `0`. -/
theorem claim6_witness :
    (add_weights dfUnmatched popRef ["region"] "pop_share").res
        = Except.ok (awResult dfUnmatched popRef ["region"] "pop_share")
    ∧ awRowWeights dfUnmatched popRef ["region"] "pop_share" 0 = [Cell.num 0] :=
  ⟨rfl, (claim6_theorem dfUnmatched popRef ["region"] "pop_share"
    (awResult dfUnmatched popRef ["region"] "pop_share") rfl (by decide) 0
    (by decide) (by decide)).1⟩

/-- With pairwise-distinct population keys, a survey row matches at most
one population row. -/
theorem popMatches_len_le_one (dfKeys popKeys : List (List Cell)) (i : Nat)
    (h : List.Pairwise (fun a b => keyEq a b = false) popKeys) :
    (popMatches dfKeys popKeys i).length ≤ 1 := by
  by_contra hgt
  push_neg at hgt
  have hnd : (popMatches dfKeys popKeys i).Nodup :=
    List.Nodup.filter _ (List.nodup_range _)
  rcases hl : popMatches dfKeys popKeys i with _ | ⟨j1, _ | ⟨j2, rest⟩⟩
  · rw [hl] at hgt; simp at hgt
  · rw [hl] at hgt; simp at hgt
  · have hmem1 : j1 ∈ popMatches dfKeys popKeys i := by rw [hl]; simp
    have hmem2 : j2 ∈ popMatches dfKeys popKeys i := by rw [hl]; simp
    have hne : j1 ≠ j2 := by
      rw [hl] at hnd
      intro hcon
      subst hcon
      simp [List.nodup_cons] at hnd
    rw [popMatches, List.mem_filter, List.mem_range] at hmem1 hmem2
    have hkey12 : keyEq (popKeys.getD j1 []) (popKeys.getD j2 []) = true :=
      keyEq_euc _ _ _ hmem1.2 hmem2.2
    have hkey21 : keyEq (popKeys.getD j2 []) (popKeys.getD j1 []) = true :=
      keyEq_euc _ _ _ hmem2.2 hmem1.2
    rw [List.pairwise_iff_getElem] at h
    rcases Nat.lt_or_ge j1 j2 with hlt | hge
    · have := h j1 j2 hmem1.1 hmem2.1 hlt
      rw [List.getD_eq_getElem _ _ hmem1.1, List.getD_eq_getElem _ _ hmem2.1] at hkey12
      rw [this] at hkey12
      exact Bool.false_ne_true hkey12
    · have hlt2 : j2 < j1 := Nat.lt_of_le_of_ne hge (Ne.symm hne)
      have := h j2 j1 hmem2.1 hmem1.1 hlt2
      rw [List.getD_eq_getElem _ _ hmem2.1, List.getD_eq_getElem _ _ hmem1.1] at hkey21
      rw [this] at hkey21
      exact Bool.false_ne_true hkey21

/-- With pairwise-distinct population keys every survey row expands to
exactly one output row. -/
theorem joinedPopVals_len_one (pop : Table) (dfKeys popKeys : List (List Cell))
    (pop_col : String) (i : Nat)
    (h : List.Pairwise (fun a b => keyEq a b = false) popKeys) :
    (joinedPopVals pop dfKeys popKeys pop_col i).length = 1 := by
  rw [joinedPopVals]
  rcases hm : popMatches dfKeys popKeys i with _ | ⟨j, js⟩
  · rfl
  · have hle := popMatches_len_le_one dfKeys popKeys i h
    rw [hm] at hle
    simp at hle
    subst hle
    simp

theorem awMults_eq_ones (df pop : Table) (strata : List String) (pop_col : String)
    (hu : List.Pairwise (fun a b => keyEq a b = false) (tableKeys pop strata)) :
    awMults df pop strata pop_col = List.replicate df.nrows 1 := by
  rw [awMults, List.eq_replicate_iff]
  constructor
  · simp
  · intro b hb
    rw [List.mem_map] at hb
    obtain ⟨i, _, rfl⟩ := hb
    exact joinedPopVals_len_one pop _ _ pop_col i hu

theorem map_getD_range (cells : List Cell) :
    (List.range cells.length).map (fun i => cells.getD i Cell.missing) = cells := by
  induction cells with
  | nil => rfl
  | cons c cs ih =>
    have hcomp : ((fun i => (c :: cs).getD i Cell.missing) ∘ Nat.succ)
        = (fun i => cs.getD i Cell.missing) := by
      funext i
      simp [Function.comp, List.getD_cons_succ]
    rw [List.length_cons, List.range_succ_eq_map, List.map_cons, List.map_map, hcomp, ih]
    rfl

theorem flatMap_singleton_eq_map (l : List Nat) (f : Nat → List Cell) (g : Nat → Cell)
    (h : ∀ i ∈ l, f i = [g i]) : l.flatMap f = l.map g := by
  induction l with
  | nil => rfl
  | cons a as ih =>
    rw [List.flatMap_cons, List.map_cons, h a (by simp),
      ih (fun i hi => h i (by simp [hi]))]
    rfl

/-- Expanding by all-1 multiplicities is the identity. -/
theorem expandCells_ones (cells : List Cell) (n : Nat) (hlen : cells.length = n) :
    expandCells (List.replicate n 1) cells = cells := by
  subst hlen
  rw [expandCells, List.length_replicate]
  rw [flatMap_singleton_eq_map _ _ (fun i => cells.getD i Cell.missing)]
  · exact map_getD_range cells
  · intro i hi
    rw [List.mem_range] at hi
    rw [List.getD_eq_getElem _ _ (by simpa using hi), List.getElem_replicate]
    rfl

theorem getColStr_none_of_not_contains (t : Table) (s : String)
    (h : t.names.contains (ColName.str s) = false) : t.getColStr s = none := by
  rw [Table.getColStr, List.find?_eq_none]
  intro col hmem hbeq
  have hname : col.name = ColName.str s := by simpa using hbeq
  have : ColName.str s ∈ t.names := by
    rw [Table.names, List.mem_map]
    exact ⟨col, hmem, hname⟩
  have hc : t.names.contains (ColName.str s) = true := by
    rw [List.contains_iff_exists_mem_beq]
    exact ⟨ColName.str s, this, by simp⟩
  rw [h] at hc
  exact Bool.false_ne_true hc

theorem setColStr_of_not_contains (t : Table) (s : String) (cs : List Cell)
    (h : t.names.contains (ColName.str s) = false) :
    t.setColStr s cs = ⟨t.cols ++ [⟨ColName.str s, cs⟩]⟩ := by
  rw [Table.setColStr, getColStr_none_of_not_contains t s h]
  rfl

theorem length_flatMap_ones (l : List Nat) (f : Nat → List Cell)
    (h : ∀ i ∈ l, (f i).length = 1) : (l.flatMap f).length = l.length := by
  induction l with
  | nil => rfl
  | cons a as ih =>
    rw [List.flatMap_cons, List.length_append, h a (by simp),
      ih (fun i hi => h i (by simp [hi])), List.length_cons]
    omega

theorem awRowWeights_length (df pop : Table) (strata : List String) (pop_col : String)
    (i : Nat) (hu : List.Pairwise (fun a b => keyEq a b = false) (tableKeys pop strata)) :
    (awRowWeights df pop strata pop_col i).length = 1 := by
  rw [awRowWeights, List.length_map, awRowPopShares, List.length_map]
  exact joinedPopVals_len_one pop _ _ pop_col i hu

theorem awWeights_length (df pop : Table) (strata : List String) (pop_col : String)
    (hu : List.Pairwise (fun a b => keyEq a b = false) (tableKeys pop strata)) :
    (awWeights df pop strata pop_col).length = df.nrows := by
  rw [awWeights, length_flatMap_ones, List.length_range]
  intro i _
  exact awRowWeights_length df pop strata pop_col i hu

theorem setColStr_of_none (t : Table) (s : String) (cs : List Cell)
    (h : t.getColStr s = none) :
    t.setColStr s cs = ⟨t.cols ++ [⟨ColName.str s, cs⟩]⟩ := by
  rw [Table.setColStr, h]
  rfl

theorem name_beq_false_of_not_contains (t : Table) (s : String)
    (h : t.names.contains (ColName.str s) = false) :
    ∀ col ∈ t.cols, (col.name == ColName.str s) = false := by
  intro col hmem
  have := List.find?_eq_none.mp (getColStr_none_of_not_contains t s h) col hmem
  simpa using this

theorem find?_cols_none_of_not_contains (t : Table) (s : String)
    (h : t.names.contains (ColName.str s) = false) :
    t.cols.find? (fun c => c.name == ColName.str s) = none :=
  getColStr_none_of_not_contains t s h

theorem find?_name_none (cols : List Column) (s : String)
    (h : ∀ c ∈ cols, (c.name == ColName.str s) = false) :
    cols.find? (fun c => c.name == ColName.str s) = none :=
  List.find?_eq_none.mpr (fun c hc hbeq => by rw [h c hc] at hbeq; exact Bool.false_ne_true hbeq)

/-- Under the clean-name, presence and numeric hypotheses `add_weights`
takes its success branch. -/
theorem aw_success_res (df pop : Table) (strata : List String) (pop_col : String)
    (hwfd : df.wfLens = true) (hwfp : pop.wfLens = true) (hne : strata ≠ [])
    (hd : ∀ c ∈ strata, (df.getColStr c).isSome = true)
    (hpp : ∀ c ∈ strata, (pop.getColStr c).isSome = true)
    (hpc : (pop.getColStr pop_col).isSome = true)
    (hclean : awCleanNames df pop_col = true)
    (hte : awTypeErr df pop strata pop_col = false) :
    (add_weights df pop strata pop_col).res
      = Except.ok (awResult df pop strata pop_col) := by
  simp only [awCleanNames, Bool.and_eq_true, Bool.not_eq_true'] at hclean
  obtain ⟨⟨⟨⟨⟨⟨hk, hs⟩, hpcol⟩, hw⟩, hpk⟩, hps⟩, hpw⟩ := hclean
  have hanyd : strata.any (fun c => (df.getColStr c).isNone) = false := by
    rw [List.any_eq_false]
    intro c hc
    obtain ⟨x, hx⟩ := Option.isSome_iff_exists.mp (hd c hc)
    simp [hx]
  have hanyp : strata.any (fun c => (pop.getColStr c).isNone) = false := by
    rw [List.any_eq_false]
    intro c hc
    obtain ⟨x, hx⟩ := Option.isSome_iff_exists.mp (hpp c hc)
    simp [hx]
  have hlend : (tableKeys df strata).length = df.nrows :=
    tableKeys_length df strata hne hwfd hd
  have hlenp : (tableKeys pop strata).length = pop.nrows :=
    tableKeys_length pop strata hne hwfp hpp
  obtain ⟨pc, hpcs⟩ := Option.isSome_iff_exists.mp hpc
  have hdf1 : df.setColStr "__key__" ((tableKeys df strata).map Cell.tup)
      = ⟨df.cols ++ [⟨ColName.str "__key__", (tableKeys df strata).map Cell.tup⟩]⟩ :=
    setColStr_of_none df _ _ (getColStr_none_of_not_contains df _ hk)
  have hg1 : (df.setColStr "__key__"
      ((tableKeys df strata).map Cell.tup)).getColStr pop_col = none := by
    rw [hdf1, Table.getColStr]
    apply find?_name_none
    intro c hc
    rcases List.mem_append.mp hc with hmem | hmem
    · exact name_beq_false_of_not_contains df pop_col hpcol c hmem
    · simp only [List.mem_singleton] at hmem
      subst hmem
      rw [beq_eq_false_iff_ne]
      intro hcon
      injection hcon with hcon'
      exact (beq_eq_false_iff_ne.mp hpk) hcon'.symm
  have hg2 : (df.setColStr "__key__"
      ((tableKeys df strata).map Cell.tup)).getColStr "sample_share" = none := by
    rw [hdf1, Table.getColStr]
    apply find?_name_none
    intro c hc
    rcases List.mem_append.mp hc with hmem | hmem
    · exact name_beq_false_of_not_contains df "sample_share" hs c hmem
    · simp only [List.mem_singleton] at hmem
      subst hmem
      rw [beq_eq_false_iff_ne]
      intro hcon
      injection hcon with hcon'
      exact absurd hcon' (by decide)
  simp only [add_weights]
  rw [if_neg (by simp [hanyd]), if_neg (not_ne_iff.mpr hlend),
    if_neg (by simp [hanyp]), if_neg (not_ne_iff.mpr hlenp),
    if_neg (by simp [hpcs]), if_neg (by simp [hpk, hps, hg1, hg2]),
    if_neg (by simp [hte])]

/-- With clean names and unique population keys `awResult` is exactly
the original survey columns plus the `weight` column. -/
theorem awResult_clean (df pop : Table) (strata : List String) (pop_col : String)
    (hwfd : df.wfLens = true) (hne : strata ≠ [])
    (hd : ∀ c ∈ strata, (df.getColStr c).isSome = true)
    (hclean : awCleanNames df pop_col = true)
    (hu : List.Pairwise (fun a b => keyEq a b = false) (tableKeys pop strata)) :
    awResult df pop strata pop_col
      = ⟨df.cols ++ [⟨ColName.str "weight", awWeights df pop strata pop_col⟩]⟩ := by
  simp only [awCleanNames, Bool.and_eq_true, Bool.not_eq_true'] at hclean
  obtain ⟨⟨⟨⟨⟨⟨hk, hs⟩, hpcol⟩, hw⟩, hpk⟩, hps⟩, hpw⟩ := hclean
  have hlend : (tableKeys df strata).length = df.nrows :=
    tableKeys_length df strata hne hwfd hd
  have hAmap : df.cols.map
      (fun c => (⟨c.name, expandCells (List.replicate df.nrows 1) c.cells⟩ : Column))
      = df.cols := by
    have hpt : ∀ c ∈ df.cols,
        (⟨c.name, expandCells (List.replicate df.nrows 1) c.cells⟩ : Column) = c := by
      intro c hc
      have hlen : c.cells.length = df.nrows := by
        rw [Table.wfLens, List.all_eq_true] at hwfd
        simpa using hwfd c hc
      rw [expandCells_ones c.cells df.nrows hlen]
    rw [List.map_congr_left hpt]
    simp
  have hkeyexp : expandCells (List.replicate df.nrows 1)
      ((tableKeys df strata).map Cell.tup) = (tableKeys df strata).map Cell.tup :=
    expandCells_ones _ _ (by rw [List.length_map, hlend])
  simp only [awResult]
  rw [awMults_eq_ones df pop strata pop_col hu,
    setColStr_of_none df _ _ (getColStr_none_of_not_contains df _ hk)]
  dsimp only
  rw [List.map_append, hAmap, List.map_cons, List.map_nil]
  dsimp only
  rw [hkeyexp]
  rw [setColStr_of_none _ "weight" _ ?hwnone]
  case hwnone =>
    apply find?_name_none
    intro c hc
    rcases List.mem_append.mp hc with hmem | hmem
    · rcases List.mem_append.mp hmem with hmem2 | hmem2
      · exact name_beq_false_of_not_contains df "weight" hw c hmem2
      · simp only [List.mem_singleton] at hmem2
        subst hmem2
        simp
    · rcases List.mem_cons.mp hmem with hmem2 | hmem2
      · subst hmem2
        simp
      · simp only [List.mem_singleton] at hmem2
        subst hmem2
        rw [beq_eq_false_iff_ne]
        intro hcon
        injection hcon with hcon'
        exact (beq_eq_false_iff_ne.mp hpw) hcon' 
  dsimp only
  rw [List.filter_append, List.filter_append, List.filter_append]
  rw [List.filter_eq_self.mpr ?hkeep]
  case hkeep =>
    intro c hc
    have h1 := name_beq_false_of_not_contains df "__key__" hk c hc
    have h2 := name_beq_false_of_not_contains df "sample_share" hs c hc
    have h3 := name_beq_false_of_not_contains df pop_col hpcol c hc
    simp [h1, h2, h3]
  have hfk : List.filter
      (fun c => !(c.name == ColName.str "__key__" || c.name == ColName.str "sample_share"
        || c.name == ColName.str pop_col))
      [(⟨ColName.str "__key__", (tableKeys df strata).map Cell.tup⟩ : Column)] = [] := by
    simp [List.filter_cons]
  rw [hfk]
  have hfsp : ∀ (sc pcells : List Cell), List.filter
      (fun c => !(c.name == ColName.str "__key__" || c.name == ColName.str "sample_share"
        || c.name == ColName.str pop_col))
      [(⟨ColName.str "sample_share", sc⟩ : Column), ⟨ColName.str pop_col, pcells⟩] = [] := by
    intro sc pcells
    simp [List.filter_cons]
  rw [hfsp]
  have hfw : List.filter
      (fun c => !(c.name == ColName.str "__key__" || c.name == ColName.str "sample_share"
        || c.name == ColName.str pop_col))
      [(⟨ColName.str "weight", awWeights df pop strata pop_col⟩ : Column)]
      = [⟨ColName.str "weight", awWeights df pop strata pop_col⟩] := by
    have hne1 : (ColName.str "weight" == ColName.str pop_col) = false := by
      rw [beq_eq_false_iff_ne]
      intro hcon
      injection hcon with hcon'
      exact (beq_eq_false_iff_ne.mp hpw) hcon'.symm
    simp [List.filter_cons, hne1]
  rw [hfw]
  simp

/-- Claim C7, counterexample: when the population reference has two rows
with the same strata key, the left merge multiplies survey rows — here a
1-row survey table comes back with 2 rows. -/
theorem claim7_counterexample :
    ∃ out, (add_weights dfSurvey popDup ["region"] "pop_share").res = Except.ok out
      ∧ out.nrows ≠ dfSurvey.nrows :=
  ⟨awResult dfSurvey popDup ["region"] "pop_share", rfl, by decide⟩

/-- Claim C7, amended: for every non-empty well-formed survey table
whose columns avoid the reserved scaffolding names, and every population
reference with pairwise-distinct strata keys and numeric shares,
`add_weights` returns exactly the original survey columns (all rows kept,
one output row per input row, values untouched) plus one new `weight`
column of `nrows` cells; the scaffolding columns (`__key__`,
`sample_share`, the population-share column) do not appear.  Key
distinctness is judged by the NaN-aware `keyEq`, so two `NaN`-keyed
population rows — which pandas treats as duplicate merge keys — violate
the hypothesis rather than satisfy it. -/
theorem claim7_amended (df pop : Table) (strata : List String) (pop_col : String)
    (hwfd : df.wfLens = true) (hwfp : pop.wfLens = true) (hne : strata ≠ [])
    (hd : ∀ c ∈ strata, (df.getColStr c).isSome = true)
    (hpp : ∀ c ∈ strata, (pop.getColStr c).isSome = true)
    (hpc : (pop.getColStr pop_col).isSome = true)
    (hclean : awCleanNames df pop_col = true)
    (hu : List.Pairwise (fun a b => keyEq a b = false) (tableKeys pop strata))
    (hte : awTypeErr df pop strata pop_col = false)
    (hnrows : 0 < df.nrows) :
    (add_weights df pop strata pop_col).res
      = Except.ok ⟨df.cols ++ [⟨ColName.str "weight", awWeights df pop strata pop_col⟩]⟩
    ∧ (awWeights df pop strata pop_col).length = df.nrows := by
  constructor
  · rw [aw_success_res df pop strata pop_col hwfd hwfp hne hd hpp hpc hclean hte,
      awResult_clean df pop strata pop_col hwfd hne hd hclean hu]
  · exact awWeights_length df pop strata pop_col hu

/-- Claim C7, amended, witness: the structure theorem applied to the
concrete matched one-row survey/population pair. -/
theorem claim7_witness :
    (add_weights dfSurvey popRef ["region"] "pop_share").res
      = Except.ok ⟨dfSurvey.cols
          ++ [⟨ColName.str "weight", awWeights dfSurvey popRef ["region"] "pop_share"⟩]⟩
    ∧ (awWeights dfSurvey popRef ["region"] "pop_share").length = dfSurvey.nrows :=
  claim7_amended dfSurvey popRef ["region"] "pop_share" (by decide) (by decide)
    (by decide) (by decide) (by decide) (by decide) (by decide)
    (by decide) (by decide) (by decide)

/-! Injectivity of decimal rendering (`Nat.repr`), needed to reason
about the `f"{base}_{i}"` collision-avoidance loop. -/

theorem toDigitsCore_append10 (fuel : Nat) : ∀ (n : Nat) (ds : List Char),
    Nat.toDigitsCore 10 fuel n ds = Nat.toDigitsCore 10 fuel n [] ++ ds := by
  induction fuel with
  | zero => intro n ds; rfl
  | succ f ih =>
    intro n ds
    simp only [Nat.toDigitsCore]
    by_cases h : n / 10 = 0
    · simp [h]
    · simp only [h, if_false]
      rw [ih (n / 10) (Nat.digitChar (n % 10) :: ds), ih (n / 10) [Nat.digitChar (n % 10)]]
      simp

theorem toDigitsCore_fuel_irrel (n : Nat) : ∀ (fuel fuel' : Nat), n < fuel → n < fuel' →
    Nat.toDigitsCore 10 fuel n [] = Nat.toDigitsCore 10 fuel' n [] := by
  induction n using Nat.strong_induction_on with
  | _ n ih =>
    intro fuel fuel' hf hf'
    cases fuel with
    | zero => omega
    | succ f =>
      cases fuel' with
      | zero => omega
      | succ f' =>
        simp only [Nat.toDigitsCore]
        by_cases h : n / 10 = 0
        · simp [h]
        · simp only [h, if_false]
          rw [toDigitsCore_append10 f, toDigitsCore_append10 f']
          have hpos : 0 < n := Nat.pos_of_ne_zero (fun h0 => h (by rw [h0]))
          have hdiv : n / 10 < n := Nat.div_lt_self hpos (by norm_num)
          rw [ih (n / 10) hdiv f f' (by omega) (by omega)]

theorem toDigits_unfold (n : Nat) :
    Nat.toDigits 10 n = if n < 10 then [Nat.digitChar n]
      else Nat.toDigits 10 (n / 10) ++ [Nat.digitChar (n % 10)] := by
  show Nat.toDigitsCore 10 (n + 1) n [] = _
  simp only [Nat.toDigitsCore]
  by_cases h : n / 10 = 0
  · have hlt : n < 10 := by omega
    rw [if_pos h, if_pos hlt, Nat.mod_eq_of_lt hlt]
  · have hge : ¬n < 10 := fun hc => h (Nat.div_eq_of_lt hc)
    rw [if_neg h, if_neg hge]
    show Nat.toDigitsCore 10 n (n / 10) [Nat.digitChar (n % 10)]
      = Nat.toDigitsCore 10 (n / 10 + 1) (n / 10) [] ++ [Nat.digitChar (n % 10)]
    rw [toDigitsCore_append10]
    congr 1
    apply toDigitsCore_fuel_irrel
    · have hpos : 0 < n := by omega
      exact Nat.div_lt_self hpos (by norm_num)
    · exact Nat.lt_succ_self _

/-- Numeric value of a decimal digit character. -/
def chVal (c : Char) : Nat := c.toNat - 48

/-- Evaluate a decimal character string back to a number. -/
def evalDigits (l : List Char) : Nat := l.foldl (fun a c => 10 * a + chVal c) 0

theorem chVal_digitChar (n : Nat) (h : n < 10) : chVal (Nat.digitChar n) = n := by
  interval_cases n <;> decide

theorem evalDigits_append_single (xs : List Char) (c : Char) :
    evalDigits (xs ++ [c]) = 10 * evalDigits xs + chVal c := by
  rw [evalDigits, evalDigits, List.foldl_append]
  rfl

theorem evalDigits_toDigits (n : Nat) : evalDigits (Nat.toDigits 10 n) = n := by
  induction n using Nat.strong_induction_on with
  | _ n ih =>
    rw [toDigits_unfold]
    by_cases h : n < 10
    · rw [if_pos h]
      show 10 * 0 + chVal (Nat.digitChar n) = n
      rw [chVal_digitChar n h]
      omega
    · rw [if_neg h, evalDigits_append_single]
      have hpos : 0 < n := by omega
      rw [ih (n / 10) (Nat.div_lt_self hpos (by norm_num)),
        chVal_digitChar _ (Nat.mod_lt n (by norm_num))]
      omega

theorem natRepr_inj (a b : Nat) (h : Nat.repr a = Nat.repr b) : a = b := by
  have hd : Nat.toDigits 10 a = Nat.toDigits 10 b := congrArg String.data h
  have := congrArg evalDigits hd
  rw [evalDigits_toDigits, evalDigits_toDigits] at this
  exact this

theorem toDigits_ne_nil (n : Nat) : Nat.toDigits 10 n ≠ [] := by
  rw [toDigits_unfold]
  split <;> simp

theorem repr_length_pos (n : Nat) : 0 < (Nat.repr n).length := by
  show 0 < (Nat.toDigits 10 n).length
  exact List.length_pos.mpr (toDigits_ne_nil n)

theorem labelCand_inj (base : String) : ∀ (i j : Nat),
    labelCand base i = labelCand base j → i = j := by
  have hlen : ∀ k : Nat, (labelCand base (k + 1)).length
      = base.length + 1 + (Nat.repr (k + 1)).length := by
    intro k
    show (base ++ "_" ++ toString (k + 1)).length = _
    rw [String.length_append, String.length_append]
    rfl
  intro i j h
  match i, j with
  | 0, 0 => rfl
  | 0, j + 1 =>
    exfalso
    have hl := congrArg String.length h
    show False
    rw [hlen j] at hl
    have := repr_length_pos (j + 1)
    have h0 : (labelCand base 0).length = base.length := rfl
    omega
  | i + 1, 0 =>
    exfalso
    have hl := congrArg String.length h
    rw [hlen i] at hl
    have := repr_length_pos (i + 1)
    have h0 : (labelCand base 0).length = base.length := rfl
    omega
  | i + 1, j + 1 =>
    have hd := congrArg String.data h
    have hd' : (base ++ "_").data ++ (toString (i + 1)).data
        = (base ++ "_").data ++ (toString (j + 1)).data := by
      simpa [labelCand, String.data_append] using hd
    have hrepr : (toString (i + 1) : String) = toString (j + 1) := by
      apply congrArg String.mk
      exact List.append_cancel_left hd'
    have := natRepr_inj (i + 1) (j + 1) hrepr
    omega

theorem freshLabel_find_isSome (used : List ColName) (base : String) :
    ((List.range (used.length + 1)).find?
      (fun i => !(used.contains (ColName.str (labelCand base i))))).isSome = true := by
  by_contra hcon
  have hnone : (List.range (used.length + 1)).find?
      (fun i => !(used.contains (ColName.str (labelCand base i)))) = none := by
    cases hf : (List.range (used.length + 1)).find?
        (fun i => !(used.contains (ColName.str (labelCand base i)))) with
    | none => rfl
    | some v => rw [hf] at hcon; simp at hcon
  have hall := List.find?_eq_none.mp hnone
  have hsub : ∀ x ∈ (List.range (used.length + 1)).map
      (fun i => ColName.str (labelCand base i)), x ∈ used := by
    intro x hx
    rw [List.mem_map] at hx
    obtain ⟨i, hi, rfl⟩ := hx
    have := hall i hi
    simp only [Bool.not_eq_true', Bool.not_eq_false] at this
    rw [← List.elem_iff]
    exact this
  have hnd : ((List.range (used.length + 1)).map
      (fun i => ColName.str (labelCand base i))).Nodup := by
    apply List.Nodup.map
    · intro i j hij
      exact labelCand_inj base i j (by injection hij)
    · exact List.nodup_range _
  have hcard1 : ((List.range (used.length + 1)).map
      (fun i => ColName.str (labelCand base i))).toFinset.card = used.length + 1 := by
    rw [List.toFinset_card_of_nodup hnd]
    simp
  have hsubF : ((List.range (used.length + 1)).map
      (fun i => ColName.str (labelCand base i))).toFinset ⊆ used.toFinset := by
    intro x hx
    rw [List.mem_toFinset] at hx ⊢
    exact hsub x hx
  have hcard2 : used.toFinset.card ≤ used.length := used.toFinset_card_le
  have := Finset.card_le_card hsubF
  omega

/-- The collision loop always produces a name not yet used. -/
theorem freshLabel_not_mem (used : List ColName) (base : String) :
    used.contains (ColName.str (freshLabel used base)) = false := by
  obtain ⟨i, hi⟩ := Option.isSome_iff_exists.mp (freshLabel_find_isSome used base)
  have hres : freshLabel used base = labelCand base i := by
    rw [freshLabel, hi]
  rw [hres]
  have := List.find?_some hi
  simp only [Bool.not_eq_true'] at this
  exact this

/-- When the base name itself is used (as the code column's own name
always is), the loop never returns the bare base name. -/
theorem freshLabel_ne_base_of_mem (used : List ColName) (base : String)
    (h : used.contains (ColName.str base) = true) : freshLabel used base ≠ base := by
  intro hcon
  have hfree := freshLabel_not_mem used base
  rw [hcon, h] at hfree
  simp at hfree

/-- Claim C4, counterexample: on `tFallback` the text columns are
all-missing and no column other than `A_1` itself is named `A_1`, yet
`label_encode` renames `A_1` to `A_1_1` (and `A_2` to `A_2_1`): the code
column's own presence in the used-name set always forces the numeric
suffix, so the fallback never keeps the bare name. -/
theorem claim4_counterexample :
    (label_encode tFallback "id").map Table.names
        = Except.ok [ColName.str "A_1_1", ColName.str "A_2_1"]
    ∧ ¬ (label_encode tFallback "id").map Table.names
        = Except.ok [ColName.str "A_1", ColName.str "A_2"] := by
  refine ⟨rfl, ?_⟩
  intro h
  have hcomp : (label_encode tFallback "id").map Table.names
      = Except.ok [ColName.str "A_1_1", ColName.str "A_2_1"] := rfl
  rw [hcomp] at h
  have h2 : ([ColName.str "A_1_1", ColName.str "A_2_1"] : List ColName)
      = [ColName.str "A_1", ColName.str "A_2"] := by injection h
  exact absurd h2 (by decide)

/-- Claim C4, amended: when a multi-response pair's text column has no
non-missing value, the fallback base is the code column's own name, but
the collision loop always appends a numeric suffix: the code column's
current name is itself among the used names, so the chosen label is the
first unused `name_i` (`i ≥ 1`) and is never the bare name.  On the
concrete all-missing-text table the outputs are `A_1_1` and `A_2_1`. -/
theorem claim4_amended :
    (∀ (used : List ColName) (base : String),
      used.contains (ColName.str base) = true →
        freshLabel used base ≠ base
        ∧ used.contains (ColName.str (freshLabel used base)) = false)
    ∧ (label_encode tFallback "id").map Table.names
        = Except.ok [ColName.str "A_1_1", ColName.str "A_2_1"] :=
  ⟨fun used base h => ⟨freshLabel_ne_base_of_mem used base h, freshLabel_not_mem used base⟩,
   rfl⟩

/-- Claim C4, amended, witness: the fallback-disambiguation fact applied
to the concrete used-name set of `tFallback` at the moment its first
pair is processed. -/
theorem claim4_witness :
    (tFallback.names.contains (ColName.str "A_1") = true)
    ∧ freshLabel tFallback.names "A_1" ≠ "A_1"
    ∧ tFallback.names.contains (ColName.str (freshLabel tFallback.names "A_1")) = false :=
  ⟨by decide, (claim4_amended.1 tFallback.names "A_1" (by decide)).1,
    (claim4_amended.1 tFallback.names "A_1" (by decide)).2⟩

/-! Multi-response members are drawn without repetition from the input
(needed for the codebook's "exactly one synthetic row" property). -/

theorem flatMap_sublist_of_sublist (l₁ l₂ : List (String × List String))
    (h : List.Sublist l₁ l₂) : List.Sublist (l₁.flatMap (·.2)) (l₂.flatMap (·.2)) := by
  induction h with
  | slnil => simp
  | cons a _ ih =>
    rw [List.flatMap_cons]
    exact ih.trans (List.sublist_append_right _ _)
  | cons₂ a _ ih =>
    rw [List.flatMap_cons, List.flatMap_cons]
    exact List.Sublist.append_left ih _

theorem count_flatten_mapAppend (gs : List (String × List String)) (g c m : String)
    (hnd : (gs.map (·.1)).Nodup) :
    ((gs.map (fun p => if p.1 == g then (p.1, p.2 ++ [c]) else p)).flatMap (·.2)).count m
      ≤ (gs.flatMap (·.2)).count m + List.count m [c] := by
  induction gs with
  | nil => simp
  | cons hd tl ih =>
    rw [List.map_cons] at hnd
    obtain ⟨hnotin, hndtl⟩ := List.nodup_cons.mp hnd
    simp only [List.map_cons, List.flatMap_cons, List.count_append]
    by_cases hhd : (hd.1 == g) = true
    · rw [if_pos hhd]
      have hmap : tl.map (fun p => if p.1 == g then (p.1, p.2 ++ [c]) else p) = tl := by
        have hpt : ∀ p ∈ tl, (if p.1 == g then (p.1, p.2 ++ [c]) else p) = p := by
          intro p hp
          rw [if_neg]
          intro hpg
          apply hnotin
          rw [List.mem_map]
          exact ⟨p, hp, (beq_iff_eq.mp hpg).trans (beq_iff_eq.mp hhd).symm⟩
        rw [List.map_congr_left hpt]
        simp
      rw [hmap]
      show ((hd.2 ++ [c]).count m) + _ ≤ _
      rw [List.count_append]
      omega
    · rw [if_neg hhd]
      have := ih hndtl
      omega

theorem count_flatten_addToGroup (gs : List (String × List String)) (g c m : String)
    (hnd : (gs.map (·.1)).Nodup) :
    ((addToGroup gs g c).flatMap (·.2)).count m
      ≤ (gs.flatMap (·.2)).count m + List.count m [c] := by
  rw [addToGroup]
  split
  · exact count_flatten_mapAppend gs g c m hnd
  · rw [List.flatMap_append]
    rw [List.count_append]
    simp

theorem addToGroup_keys_nodup (gs : List (String × List String)) (g c : String)
    (hnd : (gs.map (·.1)).Nodup) : ((addToGroup gs g c).map (·.1)).Nodup := by
  rw [addToGroup]
  split
  · have hmapkeys : (gs.map (fun p => if p.1 == g then (p.1, p.2 ++ [c]) else p)).map (·.1)
        = gs.map (·.1) := by
      rw [List.map_map]
      apply List.map_congr_left
      intro p _
      by_cases hp : (p.1 == g) = true
      · show (if p.1 == g then (p.1, p.2 ++ [c]) else p).1 = p.1
        rw [if_pos hp]
      · show (if p.1 == g then (p.1, p.2 ++ [c]) else p).1 = p.1
        rw [if_neg hp]
    rw [hmapkeys]
    exact hnd
  · next hany =>
    have hany2 : gs.any (·.1 == g) = false := by
      cases hh : gs.any (·.1 == g) with
      | false => rfl
      | true => exact absurd hh hany
    rw [List.map_append, List.nodup_append]
    refine ⟨hnd, by simp, ?_⟩
    intro x hx
    simp only [List.map_cons, List.map_nil, List.mem_singleton]
    intro hcon
    subst hcon
    rw [List.mem_map] at hx
    obtain ⟨p, hp, hpg⟩ := hx
    have := List.any_eq_false.mp hany2 p hp
    rw [hpg] at this
    simp at this

theorem groups_fold_spec (cols : List String) : ∀ (gs : List (String × List String)),
    (gs.map (·.1)).Nodup →
    (((cols.foldl (fun gs c => match underscoreKey c with
        | some g => addToGroup gs g c
        | none => gs) gs)).map (·.1)).Nodup
    ∧ ∀ m, (((cols.foldl (fun gs c => match underscoreKey c with
        | some g => addToGroup gs g c
        | none => gs) gs)).flatMap (·.2)).count m
      ≤ (gs.flatMap (·.2)).count m + cols.count m := by
  induction cols with
  | nil => exact fun gs h => ⟨h, fun m => by simp⟩
  | cons c cs ih =>
    intro gs h
    rw [List.foldl_cons]
    rcases hk : underscoreKey c with _ | g
    · obtain ⟨ihnd, ihcnt⟩ := ih gs h
      refine ⟨ihnd, fun m => le_trans (ihcnt m) ?_⟩
      rw [List.count_cons]
      omega
    · have hstep1 := addToGroup_keys_nodup gs g c h
      obtain ⟨ihnd, ihcnt⟩ := ih (addToGroup gs g c) hstep1
      refine ⟨ihnd, fun m => le_trans (ihcnt m) ?_⟩
      have h3 := count_flatten_addToGroup gs g c m h
      rw [List.count_cons, List.count_nil] at h3
      rw [List.count_cons]
      omega

theorem count_multirespFlat_le (l : List String) (m : String) :
    (multirespFlat l).count m ≤ l.count m := by
  have h := (groups_fold_spec l [] (by simp)).2 m
  rw [multirespFlat, detect_multiresp]
  have hsub := flatMap_sublist_of_sublist _ _
    (List.filter_sublist (l := l.foldl (fun gs c => match underscoreKey c with
      | some g => addToGroup gs g c
      | none => gs) []) (p := fun p => 2 ≤ p.2.length))
  have h1 := hsub.count_le m
  simp only [List.flatMap_nil, List.count_nil, Nat.zero_add] at h
  exact le_trans h1 h

theorem count_mrFlat_eq_one (l : List String) (m : String) (hnd : l.Nodup)
    (hm : m ∈ multirespFlat l) : (multirespFlat l).count m = 1 := by
  have hle := count_multirespFlat_le l m
  have hl1 : l.count m ≤ 1 := List.nodup_iff_count_le_one.mp hnd m
  have hge : 0 < (multirespFlat l).count m := List.count_pos_iff_mem.mpr hm
  omega

theorem dictInsert_keys_nodup (ps : List (String × ColName)) (k : String) (v : ColName)
    (hnd : (ps.map (·.1)).Nodup) : ((dictInsert ps k v).map (·.1)).Nodup := by
  rw [dictInsert]
  split
  · have hmapkeys : (ps.map (fun p => if p.1 == k then (k, v) else p)).map (·.1)
        = ps.map (·.1) := by
      rw [List.map_map]
      apply List.map_congr_left
      intro p _
      by_cases hp : (p.1 == k) = true
      · show (if p.1 == k then (k, v) else p).1 = p.1
        rw [if_pos hp]
        exact (eq_of_beq hp).symm
      · show (if p.1 == k then (k, v) else p).1 = p.1
        rw [if_neg hp]
    rw [hmapkeys]
    exact hnd
  · next hany =>
    have hany2 : ps.any (·.1 == k) = false := by
      cases hh : ps.any (·.1 == k) with
      | false => rfl
      | true => exact absurd hh hany
    rw [List.map_append, List.nodup_append]
    refine ⟨hnd, by simp, ?_⟩
    intro x hx
    simp only [List.map_cons, List.map_nil, List.mem_singleton]
    intro hcon
    subst hcon
    rw [List.mem_map] at hx
    obtain ⟨p, hp, hpg⟩ := hx
    have := List.any_eq_false.mp hany2 p hp
    rw [hpg] at this
    simp at this

theorem pairs_foldl_keys_nodup (allcols : List ColName) (cs : List ColName) :
    ∀ ps : List (String × ColName), (ps.map (·.1)).Nodup →
    (((cs.foldl (fun pairs col =>
      let colStr := col.pyStr
      if strEndsWith colStr "(TEXT)" then
        let code_col := strDropRight colStr 6
        if allcols.contains (ColName.str code_col)
            || (allcols.map ColName.pyStr).contains code_col then
          dictInsert pairs code_col col
        else pairs
      else pairs) ps)).map (·.1)).Nodup := by
  induction cs with
  | nil => exact fun ps h => h
  | cons c cs ih =>
    intro ps h
    rw [List.foldl_cons]
    apply ih
    dsimp only
    split
    · split
      · exact dictInsert_keys_nodup ps _ _ h
      · exact h
    · exact h

theorem detPairs_keys_nodup (columns : List ColName) :
    ((detect_pairs columns).map (·.1)).Nodup := by
  rw [detect_pairs]
  exact pairs_foldl_keys_nodup columns columns [] (by simp)

theorem filter_flatMap_key (f : (String × ColName) → List CodebookRow) :
    ∀ ps : List (String × ColName), (ps.map (·.1)).Nodup →
    (∀ q ∈ ps, ∀ r ∈ f q, r.varName = q.1) →
    ∀ p ∈ ps, (ps.flatMap f).filter (fun r => r.varName == p.1) = f p := by
  intro ps
  induction ps with
  | nil => intro _ _ p hp; exact absurd hp (List.not_mem_nil p)
  | cons q qs ih =>
    intro hnd hvar p hp
    rw [List.map_cons, List.nodup_cons] at hnd
    obtain ⟨hq, hnd'⟩ := hnd
    rw [List.flatMap_cons, List.filter_append]
    rcases List.mem_cons.mp hp with hpq | hpqs
    · subst hpq
      have h1 : (f p).filter (fun r => r.varName == p.1) = f p := by
        apply List.filter_eq_self.mpr
        intro r hr
        rw [hvar p (List.mem_cons_self p qs) r hr]
        exact beq_self_eq_true p.1
      have h2 : (qs.flatMap f).filter (fun r => r.varName == p.1) = [] := by
        apply List.filter_eq_nil_iff.mpr
        intro r hr
        rw [List.mem_flatMap] at hr
        obtain ⟨q', hq', hrq'⟩ := hr
        rw [hvar q' (List.mem_cons_of_mem p hq') r hrq']
        intro hbeq
        exact hq (eq_of_beq hbeq ▸ List.mem_map_of_mem (·.1) hq')
      rw [h1, h2, List.append_nil]
    · have h1 : (f q).filter (fun r => r.varName == p.1) = [] := by
        apply List.filter_eq_nil_iff.mpr
        intro r hr
        rw [hvar q (List.mem_cons_self q qs) r hr]
        intro hbeq
        exact hq (eq_of_beq hbeq ▸ List.mem_map_of_mem (·.1) hpqs)
      rw [h1, List.nil_append]
      exact ih hnd' (fun q' hq' => hvar q' (List.mem_cons_of_mem q hq')) p hpqs

theorem count_filter_pos (p : String → Bool) (m : String) (h : p m = true) :
    ∀ l : List String, (l.filter p).count m = l.count m := by
  intro l
  induction l with
  | nil => rfl
  | cons a l ih =>
    rw [List.filter_cons]
    by_cases hpa : p a = true
    · rw [if_pos hpa, List.count_cons, List.count_cons, ih]
    · rw [if_neg hpa, ih, List.count_cons]
      have ham : (a == m) = false := by
        cases hh : a == m with
        | false => rfl
        | true =>
          have : p a = true := by rw [eq_of_beq hh]; exact h
          exact absurd this hpa
      rw [ham]
      simp

theorem countP_synth_map (l : List String) (m : String) :
    (l.map (fun x => (⟨x, Cell.int 1, Cell.str "Selected"⟩ : CodebookRow))).countP
      (fun r => r.varName == m) = l.count m := by
  induction l with
  | nil => rfl
  | cons a l ih =>
    rw [List.map_cons, List.countP_cons, List.count_cons, ih]

/-- C10: with pairwise-distinct (stringified) column names, the codebook
built from the original table consists of one row per distinct
non-missing (code value, text value) pair of each detected code/text
pair — the rows carrying a pair's code name as variable are exactly the
distinct observed pairs, in order — plus exactly one synthetic row
`(variable, 1, "Selected")` for each multi-response code column that has
no text pairing, and every row carrying such a column's name is that
synthetic row. -/
theorem claim10_theorem (t : Table)
    (hnd : (t.names.map ColName.pyStr).Nodup) :
    (∀ p ∈ detect_pairs t.names,
      (build_codebook t).filter (fun r => r.varName == p.1)
        = (distinctPairs (((t.cellsOfStr p.1).zip
            (((t.getColObj p.2).map (·.cells)).getD [])).filter
            (fun q => !q.1.isMissing && !q.2.isMissing))).map
          (fun q => ⟨p.1, q.1, q.2⟩))
    ∧ ∀ m ∈ multirespFlat (t.names.map ColName.pyStr),
        ((detect_pairs t.names).map (·.1)).contains m = false →
        ((build_codebook t).countP (fun r => r.varName == m)) = 1
        ∧ ∀ r ∈ build_codebook t, r.varName = m →
            r = ⟨m, Cell.int 1, Cell.str "Selected"⟩ := by
  have hbc : build_codebook t =
      (detect_pairs t.names).flatMap (fun p =>
        (distinctPairs (((t.cellsOfStr p.1).zip
          (((t.getColObj p.2).map (·.cells)).getD [])).filter
          (fun q => !q.1.isMissing && !q.2.isMissing))).map
        (fun q => ⟨p.1, q.1, q.2⟩))
      ++ ((multirespFlat (t.names.map ColName.pyStr)).filter
          (fun m => !((detect_pairs t.names).map (·.1)).contains m)).map
        (fun m => ⟨m, Cell.int 1, Cell.str "Selected"⟩) := rfl
  have hvar : ∀ q ∈ detect_pairs t.names,
      ∀ r ∈ (distinctPairs (((t.cellsOfStr q.1).zip
          (((t.getColObj q.2).map (·.cells)).getD [])).filter
          (fun w => !w.1.isMissing && !w.2.isMissing))).map
        (fun w => (⟨q.1, w.1, w.2⟩ : CodebookRow)),
      r.varName = q.1 := by
    intro q _ r hr
    rw [List.mem_map] at hr
    obtain ⟨w, _, hw⟩ := hr
    rw [← hw]
  constructor
  · intro p hp
    rw [hbc, List.filter_append]
    have hsynth : (((multirespFlat (t.names.map ColName.pyStr)).filter
        (fun m => !((detect_pairs t.names).map (·.1)).contains m)).map
        (fun m => (⟨m, Cell.int 1, Cell.str "Selected"⟩ : CodebookRow))).filter
        (fun r => r.varName == p.1) = [] := by
      apply List.filter_eq_nil_iff.mpr
      intro r hr
      rw [List.mem_map] at hr
      obtain ⟨m, hm, hmr⟩ := hr
      rw [List.mem_filter] at hm
      have hnc := hm.2
      rw [← hmr]
      intro hbeq
      have hmp : m = p.1 := eq_of_beq hbeq
      have hcp : ((detect_pairs t.names).map (·.1)).contains p.1 = true :=
        List.elem_eq_true_of_mem (List.mem_map_of_mem (·.1) hp)
      rw [hmp, hcp] at hnc
      simp at hnc
    rw [hsynth, List.append_nil]
    exact filter_flatMap_key _ (detect_pairs t.names) (detPairs_keys_nodup t.names) hvar p hp
  · intro m hm hup
    have hmem : ∀ r ∈ build_codebook t, r.varName = m →
        r = (⟨m, Cell.int 1, Cell.str "Selected"⟩ : CodebookRow) := by
      intro r hr hrm
      rw [hbc] at hr
      rcases List.mem_append.mp hr with hpr | hsy
      · rw [List.mem_flatMap] at hpr
        obtain ⟨q, hq, hrq⟩ := hpr
        have := hvar q hq r hrq
        rw [hrm] at this
        have hcm : ((detect_pairs t.names).map (·.1)).contains m = true :=
          List.elem_eq_true_of_mem (this ▸ List.mem_map_of_mem (·.1) hq)
        rw [hup] at hcm
        exact absurd hcm (by simp)
      · rw [List.mem_map] at hsy
        obtain ⟨x, _, hxr⟩ := hsy
        rw [← hxr] at hrm ⊢
        rw [show x = m from hrm]
    refine ⟨?_, hmem⟩
    rw [hbc, List.countP_append]
    have h1 : ((detect_pairs t.names).flatMap (fun p =>
        (distinctPairs (((t.cellsOfStr p.1).zip
          (((t.getColObj p.2).map (·.cells)).getD [])).filter
          (fun q => !q.1.isMissing && !q.2.isMissing))).map
        (fun q => (⟨p.1, q.1, q.2⟩ : CodebookRow)))).countP
        (fun r => r.varName == m) = 0 := by
      apply List.countP_eq_zero.mpr
      intro r hr
      rw [List.mem_flatMap] at hr
      obtain ⟨q, hq, hrq⟩ := hr
      have := hvar q hq r hrq
      rw [this]
      intro hbeq
      have hcm : ((detect_pairs t.names).map (·.1)).contains m = true :=
        List.elem_eq_true_of_mem (eq_of_beq hbeq ▸ List.mem_map_of_mem (·.1) hq)
      rw [hup] at hcm
      exact absurd hcm (by simp)
    have h2 : (((multirespFlat (t.names.map ColName.pyStr)).filter
        (fun m => !((detect_pairs t.names).map (·.1)).contains m)).map
        (fun m => (⟨m, Cell.int 1, Cell.str "Selected"⟩ : CodebookRow))).countP
        (fun r => r.varName == m) = 1 := by
      rw [countP_synth_map]
      have hpred : (fun m' => !((detect_pairs t.names).map (·.1)).contains m') m = true := by
        show (!((detect_pairs t.names).map (·.1)).contains m) = true
        rw [hup]
        rfl
      rw [count_filter_pos (fun m' => !((detect_pairs t.names).map (·.1)).contains m') m hpred]
      exact count_mrFlat_eq_one _ m hnd hm
    rw [h1, h2]

theorem claim10_witness :
    ((tScenario.names.map ColName.pyStr).Nodup)
    ∧ ("Q2_1" ∈ multirespFlat (tScenario.names.map ColName.pyStr)
    ∧ ((detect_pairs tScenario.names).map (·.1)).contains "Q2_1" = false)
    ∧ ((build_codebook tScenario).countP (fun r => r.varName == "Q2_1") = 1
    ∧ ∀ r ∈ build_codebook tScenario, r.varName = "Q2_1" →
        r = ⟨"Q2_1", Cell.int 1, Cell.str "Selected"⟩) :=
  ⟨by decide, ⟨by decide, by decide⟩,
    (claim10_theorem tScenario (by decide)).2 "Q2_1" (by decide) (by decide)⟩

theorem strEndsWith_iff (s suf : String) :
    strEndsWith s suf = true ↔ ∃ pre, pre ++ suf.data = s.data := by
  rw [strEndsWith, List.isSuffixOf_iff_suffix]
  exact Iff.rfl

theorem strEndsWith_restore (s suf : String) (h : strEndsWith s suf = true) :
    strDropRight s suf.data.length ++ suf = s := by
  obtain ⟨pre, hpre⟩ := (strEndsWith_iff s suf).mp h
  have hdrop : (strDropRight s suf.data.length).data = pre := by
    rw [strDropRight]
    show s.data.take (s.data.length - suf.data.length) = pre
    rw [← hpre, List.length_append]
    have hlen : pre.length + suf.data.length - suf.data.length = pre.length := by omega
    rw [hlen]
    exact List.take_left pre suf.data
  apply String.ext
  rw [String.data_append, hdrop, hpre]

theorem strEndsWith_append (u suf : String) : strEndsWith (u ++ suf) suf = true :=
  (strEndsWith_iff _ _).mpr ⟨u.data, by rw [String.data_append]⟩

theorem append_TEXT_ne (c : String) : c ++ "(TEXT)" ≠ c := by
  intro h
  have hd := congrArg (fun s => s.data.length) h
  simp only [String.data_append, List.length_append] at hd
  have h6 : ("(TEXT)" : String).data.length = 6 := by decide
  rw [h6] at hd
  omega

theorem append_TEXT_inj (c c' : String) (h : c ++ "(TEXT)" = c' ++ "(TEXT)") : c = c' := by
  have hd := congrArg String.data h
  rw [String.data_append, String.data_append] at hd
  exact String.ext (List.append_cancel_right hd)

theorem endsWith_doubled (c : String) (h : strEndsWith c "(TEXT)" = true) :
    strEndsWith (c ++ "(TEXT)") "(TEXT)(TEXT)" = true := by
  obtain ⟨pre, hpre⟩ := (strEndsWith_iff _ _).mp h
  apply (strEndsWith_iff _ _).mpr
  refine ⟨pre, ?_⟩
  have hTT : ("(TEXT)(TEXT)" : String).data
      = ("(TEXT)" : String).data ++ ("(TEXT)" : String).data := by decide
  rw [String.data_append, hTT, ← List.append_assoc, hpre]

theorem restore_TEXT (s : String) (h : strEndsWith s "(TEXT)" = true) :
    strDropRight s 6 ++ "(TEXT)" = s := by
  have h6 : ("(TEXT)" : String).data.length = 6 := by decide
  have hres := strEndsWith_restore s "(TEXT)" h
  rw [h6] at hres
  exact hres

theorem renameStr_names (t : Table) (s new : String) :
    (t.renameStr s new).names
      = t.names.map (fun n => if n == ColName.str s then ColName.str new else n) := by
  rw [Table.renameStr, Table.names, Table.names]
  show (t.cols.map fun c =>
      if c.name == ColName.str s then (⟨ColName.str new, c.cells⟩ : Column) else c).map (·.name)
    = (t.cols.map (·.name)).map (fun n => if n == ColName.str s then ColName.str new else n)
  rw [List.map_map, List.map_map]
  apply List.map_congr_left
  intro c _
  by_cases h : (c.name == ColName.str s) = true
  · show (if c.name == ColName.str s then (⟨ColName.str new, c.cells⟩ : Column) else c).name
        = if c.name == ColName.str s then ColName.str new else c.name
    rw [if_pos h, if_pos h]
  · show (if c.name == ColName.str s then (⟨ColName.str new, c.cells⟩ : Column) else c).name
        = if c.name == ColName.str s then ColName.str new else c.name
    rw [if_neg h, if_neg h]

theorem renameStr_length (t : Table) (s new : String) :
    (t.renameStr s new).cols.length = t.cols.length := by
  rw [Table.renameStr]
  exact List.length_map _ _

theorem setColStr_names_of_isSome (t : Table) (s : String) (cs : List Cell)
    (h : (t.getColStr s).isSome = true) :
    (t.setColStr s cs).names = t.names := by
  rw [Table.setColStr, if_pos h, Table.names, Table.names]
  show (t.cols.map fun c =>
      if c.name == ColName.str s then (⟨c.name, cs⟩ : Column) else c).map (·.name)
    = t.cols.map (·.name)
  rw [List.map_map]
  apply List.map_congr_left
  intro c _
  by_cases hcc : (c.name == ColName.str s) = true
  · show (if c.name == ColName.str s then (⟨c.name, cs⟩ : Column) else c).name = c.name
    rw [if_pos hcc]
  · show (if c.name == ColName.str s then (⟨c.name, cs⟩ : Column) else c).name = c.name
    rw [if_neg hcc]

theorem setColStr_length_of_isSome (t : Table) (s : String) (cs : List Cell)
    (h : (t.getColStr s).isSome = true) :
    (t.setColStr s cs).cols.length = t.cols.length := by
  rw [Table.setColStr, if_pos h]
  exact List.length_map _ _

theorem getColStr_isSome_of_mem (t : Table) (s : String) (h : ColName.str s ∈ t.names) :
    (t.getColStr s).isSome = true := by
  rw [Table.names] at h
  obtain ⟨col, hcol, hname⟩ := List.mem_map.mp h
  rw [Table.getColStr]
  exact List.find?_isSome.mpr ⟨col, hcol, by rw [hname]; exact beq_self_eq_true _⟩

theorem getColObj_isSome_of_mem (t : Table) (n : ColName) (h : n ∈ t.names) :
    (t.getColObj n).isSome = true := by
  rw [Table.names] at h
  obtain ⟨col, hcol, hname⟩ := List.mem_map.mp h
  rw [Table.getColObj]
  exact List.find?_isSome.mpr ⟨col, hcol, by rw [hname]; exact beq_self_eq_true _⟩

theorem dropObj_eq_ok_of_mem (t : Table) (n : ColName) (h : n ∈ t.names) :
    t.dropObj n = .ok ⟨t.cols.filter (fun c => !(c.name == n))⟩ := by
  rw [Table.dropObj, if_pos (List.elem_eq_true_of_mem h)]

theorem drop_names (cols : List Column) (x : ColName) :
    (List.filter (fun c => !(c.name == x)) cols).map (·.name)
      = (cols.map (·.name)).filter (fun n => !(n == x)) := by
  induction cols with
  | nil => rfl
  | cons c cs ih =>
    rw [List.filter_cons, List.map_cons, List.filter_cons]
    by_cases h : (!(c.name == x)) = true
    · rw [if_pos h, if_pos h, List.map_cons, ih]
    · rw [if_neg h, if_neg h, ih]

theorem countP_name_eq_count (cols : List Column) (x : ColName) :
    List.countP (fun c => (c.name == x)) cols = (cols.map (·.name)).count x := by
  induction cols with
  | nil => rfl
  | cons c cs ih => rw [List.countP_cons, List.map_cons, List.count_cons, ih]

theorem countP_not_name (cols : List Column) (x : ColName) :
    List.countP (fun c => !(c.name == x)) cols
      + List.countP (fun c => (c.name == x)) cols = cols.length := by
  induction cols with
  | nil => rfl
  | cons c cs ih =>
    rw [List.countP_cons, List.countP_cons, List.length_cons]
    by_cases h : (c.name == x) = true
    · rw [h]
      simp only [Bool.not_true]
      simp
      omega
    · have hf : (c.name == x) = false := by
        cases hh : c.name == x with
        | false => rfl
        | true => exact absurd hh h
      rw [hf]
      simp only [Bool.not_false]
      simp
      omega

theorem filter_ne_length (cols : List Column) (x : ColName)
    (hnd : (cols.map (·.name)).Nodup) (hx : x ∈ cols.map (·.name)) :
    (cols.filter (fun c => !(c.name == x))).length + 1 = cols.length := by
  have h1 : List.countP (fun c => !(c.name == x)) cols
      = (cols.filter (fun c => !(c.name == x))).length := List.countP_eq_length_filter (fun c => !(c.name == x)) cols
  have h2 := countP_not_name cols x
  have h3 := countP_name_eq_count cols x
  have h4 : (cols.map (·.name)).count x = 1 := List.count_eq_one_of_mem hnd hx
  omega

theorem renameStr_names_nodup (t : Table) (s new : String)
    (hnd : t.names.Nodup) (hnew : ¬ ColName.str new ∈ t.names) :
    (t.renameStr s new).names.Nodup := by
  rw [renameStr_names]
  apply hnd.map_on
  intro x hx y hy hgxy
  by_cases hxs : (x == ColName.str s) = true
  · by_cases hys : (y == ColName.str s) = true
    · exact (eq_of_beq hxs).trans (eq_of_beq hys).symm
    · exfalso
      rw [if_pos hxs, if_neg hys] at hgxy
      rw [← hgxy] at hy
      exact hnew hy
  · by_cases hys : (y == ColName.str s) = true
    · exfalso
      rw [if_neg hxs, if_pos hys] at hgxy
      rw [hgxy] at hx
      exact hnew hx
    · rw [if_neg hxs, if_neg hys] at hgxy
      exact hgxy

theorem mem_rename_of_ne (t : Table) (s new : String) (x : ColName)
    (hx : x ∈ t.names) (hne : (x == ColName.str s) = false) :
    x ∈ (t.renameStr s new).names := by
  rw [renameStr_names]
  refine List.mem_map.mpr ⟨x, hx, ?_⟩
  simp [hne]

theorem mem_dictInsert (ps : List (String × ColName)) (k : String) (v : ColName)
    (q : String × ColName) (hq : q ∈ dictInsert ps k v) : q ∈ ps ∨ q = (k, v) := by
  rw [dictInsert] at hq
  split at hq
  · rw [List.mem_map] at hq
    obtain ⟨p, hp, hpq⟩ := hq
    by_cases h : (p.1 == k) = true
    · rw [if_pos h] at hpq
      exact Or.inr hpq.symm
    · rw [if_neg h] at hpq
      exact Or.inl (hpq ▸ hp)
  · rcases List.mem_append.mp hq with h | h
    · exact Or.inl h
    · exact Or.inr (List.mem_singleton.mp h)

theorem pairs_foldl_mem (allcols : List ColName) (P : (String × ColName) → Prop)
    (hstep : ∀ col : ColName, col ∈ allcols → strEndsWith col.pyStr "(TEXT)" = true →
      (allcols.contains (ColName.str (strDropRight col.pyStr 6))
        || (allcols.map ColName.pyStr).contains (strDropRight col.pyStr 6)) = true →
      P (strDropRight col.pyStr 6, col)) :
    ∀ cs : List ColName, (∀ c ∈ cs, c ∈ allcols) →
    ∀ ps : List (String × ColName), (∀ p ∈ ps, P p) →
    ∀ p ∈ cs.foldl (fun pairs col =>
      let colStr := col.pyStr
      if strEndsWith colStr "(TEXT)" then
        let code_col := strDropRight colStr 6
        if allcols.contains (ColName.str code_col)
            || (allcols.map ColName.pyStr).contains code_col then
          dictInsert pairs code_col col
        else pairs
      else pairs) ps, P p := by
  intro cs
  induction cs with
  | nil => exact fun _ ps hps p hp => hps p hp
  | cons c cs ih =>
    intro hcs ps hps p hp
    rw [List.foldl_cons] at hp
    refine ih (fun c' hc' => hcs c' (List.mem_cons_of_mem c hc')) _ ?_ p hp
    intro q hq
    dsimp only at hq
    by_cases h1 : strEndsWith c.pyStr "(TEXT)" = true
    · rw [if_pos h1] at hq
      by_cases h2 : (allcols.contains (ColName.str (strDropRight c.pyStr 6))
          || (allcols.map ColName.pyStr).contains (strDropRight c.pyStr 6)) = true
      · rw [if_pos h2] at hq
        rcases mem_dictInsert ps _ c q hq with hmem | heq
        · exact hps q hmem
        · rw [heq]
          exact hstep c (hcs c (List.mem_cons_self c cs)) h1 h2
      · rw [if_neg h2] at hq
        exact hps q hq
    · rw [if_neg h1] at hq
      exact hps q hq

theorem mem_detect_pairs (columns : List ColName) (p : String × ColName)
    (hp : p ∈ detect_pairs columns) :
    ∃ col, col ∈ columns ∧ strEndsWith col.pyStr "(TEXT)" = true
      ∧ p = (strDropRight col.pyStr 6, col)
      ∧ (columns.contains (ColName.str (strDropRight col.pyStr 6))
        || (columns.map ColName.pyStr).contains (strDropRight col.pyStr 6)) = true := by
  rw [detect_pairs] at hp
  exact pairs_foldl_mem columns
    (fun q => ∃ col, col ∈ columns ∧ strEndsWith col.pyStr "(TEXT)" = true
      ∧ q = (strDropRight col.pyStr 6, col)
      ∧ (columns.contains (ColName.str (strDropRight col.pyStr 6))
        || (columns.map ColName.pyStr).contains (strDropRight col.pyStr 6)) = true)
    (fun col hcol h1 h2 => ⟨col, hcol, h1, rfl, h2⟩)
    columns (fun c hc => hc) [] (by simp) p hp

theorem name_is_str (t : Table) (hstr : namesAreStrings t = true)
    (n : ColName) (hn : n ∈ t.names) : ∃ s, n = ColName.str s := by
  rw [Table.names] at hn
  obtain ⟨cc, hcc, hccname⟩ := List.mem_map.mp hn
  rw [namesAreStrings] at hstr
  have hall := List.all_eq_true.mp hstr cc hcc
  cases hname : cc.name with
  | str s => exact ⟨s, by rw [← hccname, hname]⟩
  | int m =>
    rw [hname] at hall
    simp at hall

theorem noDoubleText_at (t : Table) (hdt : noDoubleText t = true)
    (n : ColName) (hn : n ∈ t.names) :
    strEndsWith n.pyStr "(TEXT)(TEXT)" = false := by
  rw [Table.names] at hn
  obtain ⟨cc, hcc, hccname⟩ := List.mem_map.mp hn
  rw [noDoubleText] at hdt
  have hall := List.all_eq_true.mp hdt cc hcc
  rw [hccname] at hall
  cases hb : strEndsWith n.pyStr "(TEXT)(TEXT)" with
  | false => rfl
  | true =>
    rw [hb] at hall
    simp at hall

theorem detect_pairs_shape (t : Table) (hstr : namesAreStrings t = true)
    (hdt : noDoubleText t = true) :
    ∀ p ∈ detect_pairs t.names,
      p.2 = ColName.str (p.1 ++ "(TEXT)")
      ∧ p.2 ∈ t.names
      ∧ ColName.str p.1 ∈ t.names
      ∧ strEndsWith p.1 "(TEXT)" = false := by
  intro p hp
  obtain ⟨col, hcol, hends, hpeq, hpres⟩ := mem_detect_pairs t.names p hp
  obtain ⟨s, hcols⟩ := name_is_str t hstr col hcol
  subst hcols
  have hends' : strEndsWith s "(TEXT)" = true := hends
  have hrestore : strDropRight s 6 ++ "(TEXT)" = s := restore_TEXT s hends'
  have hp1 : p.1 = strDropRight s 6 := by rw [hpeq]; rfl
  have hp2 : p.2 = ColName.str s := by rw [hpeq]
  refine ⟨?_, ?_, ?_, ?_⟩
  · rw [hp2, hp1, hrestore]
  · rw [hp2]
    exact hcol
  · rw [hp1]
    rcases Bool.or_eq_true_iff.mp hpres with hc | hc
    · exact List.mem_of_elem_eq_true hc
    · have hmem : strDropRight s 6 ∈ t.names.map ColName.pyStr :=
        List.mem_of_elem_eq_true hc
      obtain ⟨n, hn, hnpy⟩ := List.mem_map.mp hmem
      obtain ⟨u, hu⟩ := name_is_str t hstr n hn
      rw [hu] at hnpy hn
      have : u = strDropRight s 6 := hnpy
      rw [← this]
      exact hn
  · rw [hp1]
    cases hb : strEndsWith (strDropRight s 6) "(TEXT)" with
    | false => rfl
    | true =>
      have hdb := endsWith_doubled (strDropRight s 6) hb
      rw [hrestore] at hdb
      have := noDoubleText_at t hdt (ColName.str s) hcol
      have hpys : (ColName.str s).pyStr = s := rfl
      rw [hpys] at this
      rw [hdb] at this
      exact absurd this (by simp)

theorem labelStep_eq_set (flat : List String) (s : Table) (used : List ColName)
    (c : String) (x : ColName) (tc : Column)
    (hsome : s.getColObj x = some tc)
    (hflat : flat.contains c = false)
    (hxmem : x ∈ (s.setColStr c tc.cells).names) :
    labelStep flat (s, used) (c, x)
      = Except.ok (⟨(s.setColStr c tc.cells).cols.filter (fun col => !(col.name == x))⟩,
          used) := by
  simp only [labelStep]
  rw [hsome]
  simp only [hflat]
  rw [dropObj_eq_ok_of_mem _ _ hxmem]
  rfl

theorem labelStep_eq_rename (flat : List String) (s : Table) (used : List ColName)
    (c : String) (x : ColName) (tc : Column)
    (hsome : s.getColObj x = some tc)
    (hflat : flat.contains c = true)
    (hxmem : x ∈ (s.renameStr c (freshLabel used
        (((tc.cells.filter (fun cl => !cl.isMissing)).map Cell.pyStr).headD c))).names) :
    labelStep flat (s, used) (c, x)
      = Except.ok (⟨(s.renameStr c (freshLabel used
          (((tc.cells.filter (fun cl => !cl.isMissing)).map Cell.pyStr).headD c))).cols.filter
            (fun col => !(col.name == x))⟩,
        used ++ [ColName.str (freshLabel used
          (((tc.cells.filter (fun cl => !cl.isMissing)).map Cell.pyStr).headD c))]) := by
  simp only [labelStep]
  rw [hsome]
  simp only [hflat]
  rw [dropObj_eq_ok_of_mem _ _ hxmem]
  rfl

theorem ok_bind_foldlM (flat : List String) (st : Table × List ColName)
    (rest : List (String × ColName)) :
    (Except.ok st >>= rest.foldlM (labelStep flat) :
        Except PdError (Table × List ColName))
      = rest.foldlM (labelStep flat) st := rfl

theorem labelFold_spec (flat : List String) :
    ∀ (ps : List (String × ColName)) (s : Table) (used : List ColName),
    (ps.map (·.1)).Nodup →
    (∀ p ∈ ps, p.2 = ColName.str (p.1 ++ "(TEXT)")) →
    (∀ p ∈ ps, strEndsWith p.1 "(TEXT)" = false) →
    (∀ p ∈ ps, p.2 ∈ s.names) →
    (∀ p ∈ ps, ColName.str p.1 ∈ s.names) →
    (∀ n ∈ s.names, n ∈ used) →
    s.names.Nodup →
    ∃ s' used', ps.foldlM (labelStep flat) (s, used) = Except.ok (s', used')
      ∧ s'.cols.length + ps.length = s.cols.length
      ∧ (∀ n ∈ s'.names, n ∈ s.names ∨ ¬ n ∈ used)
      ∧ (∀ n ∈ s'.names, n ∈ used')
      ∧ (∀ n ∈ used, n ∈ used')
      ∧ (∀ p ∈ ps, ¬ p.2 ∈ s'.names) := by
  intro ps
  induction ps with
  | nil =>
    intro s used _ _ _ _ _ hsub hnd
    exact ⟨s, used, rfl, by simp, fun n hn => Or.inl hn, hsub, fun n hn => hn, by simp⟩
  | cons p ps ih =>
    intro s used hkeys hshape hnotext htext hcode hsub hnd
    obtain ⟨c, x⟩ := p
    have hx : x ∈ s.names := htext (c, x) (List.mem_cons_self _ _)
    have hcmem : ColName.str c ∈ s.names := hcode (c, x) (List.mem_cons_self _ _)
    have hxeq : x = ColName.str (c ++ "(TEXT)") := hshape (c, x) (List.mem_cons_self _ _)
    have hcnotext : strEndsWith c "(TEXT)" = false := hnotext (c, x) (List.mem_cons_self _ _)
    have hkeys' : (ps.map (·.1)).Nodup := by
      rw [List.map_cons, List.nodup_cons] at hkeys
      exact hkeys.2
    have hcnotin : ¬ c ∈ ps.map (·.1) := by
      rw [List.map_cons, List.nodup_cons] at hkeys
      exact hkeys.1
    obtain ⟨tc, htc⟩ := Option.isSome_iff_exists.mp (getColObj_isSome_of_mem s x hx)
    have hxnec : (x == ColName.str c) = false := by
      rw [beq_eq_false_iff_ne, hxeq]
      intro hcontra
      injection hcontra with hc2
      exact append_TEXT_ne c hc2
    have htail_shape : ∀ p' ∈ ps, p'.2 = ColName.str (p'.1 ++ "(TEXT)") :=
      fun p' hp' => hshape p' (List.mem_cons_of_mem _ hp')
    have htail_notext : ∀ p' ∈ ps, strEndsWith p'.1 "(TEXT)" = false :=
      fun p' hp' => hnotext p' (List.mem_cons_of_mem _ hp')
    have htail_text : ∀ p' ∈ ps, p'.2 ∈ s.names :=
      fun p' hp' => htext p' (List.mem_cons_of_mem _ hp')
    have htail_code : ∀ p' ∈ ps, ColName.str p'.1 ∈ s.names :=
      fun p' hp' => hcode p' (List.mem_cons_of_mem _ hp')
    have htext_ne_c : ∀ p' ∈ ps, (p'.2 == ColName.str c) = false := by
      intro p' hp'
      rw [beq_eq_false_iff_ne, htail_shape p' hp']
      intro hcontra
      injection hcontra with hc2
      have := strEndsWith_append p'.1 "(TEXT)"
      rw [hc2, hcnotext] at this
      exact absurd this (by simp)
    have htext_ne_x : ∀ p' ∈ ps, (p'.2 == x) = false := by
      intro p' hp'
      rw [beq_eq_false_iff_ne, htail_shape p' hp', hxeq]
      intro hcontra
      injection hcontra with hc2
      have hpc : p'.1 = c := append_TEXT_inj _ _ hc2
      exact hcnotin (hpc ▸ List.mem_map_of_mem (·.1) hp')
    have hcode_ne_x : ∀ p' ∈ ps, (ColName.str p'.1 == x) = false := by
      intro p' hp'
      rw [beq_eq_false_iff_ne, hxeq]
      intro hcontra
      injection hcontra with hc2
      have := strEndsWith_append c "(TEXT)"
      rw [← hc2, htail_notext p' hp'] at this
      exact absurd this (by simp)
    have hcode_ne_c : ∀ p' ∈ ps, (ColName.str p'.1 == ColName.str c) = false := by
      intro p' hp'
      rw [beq_eq_false_iff_ne]
      intro hcontra
      injection hcontra with hc2
      exact hcnotin (hc2 ▸ List.mem_map_of_mem (·.1) hp')
    rw [List.foldlM_cons]
    cases hfl : flat.contains c with
    | true =>
      have hxmem1 : x ∈ (s.renameStr c (freshLabel used
          (((tc.cells.filter (fun cl => !cl.isMissing)).map Cell.pyStr).headD c))).names :=
        mem_rename_of_ne s c _ x hx hxnec
      have hstep := labelStep_eq_rename flat s used c x tc htc hfl hxmem1
      rw [hstep, ok_bind_foldlM]
      generalize hFL : freshLabel used
          (((tc.cells.filter (fun cl => !cl.isMissing)).map Cell.pyStr).headD c) = L at hxmem1 ⊢
      have hLfresh : used.contains (ColName.str L) = false := by
        rw [← hFL]
        exact freshLabel_not_mem used _
      have hLnotused : ¬ ColName.str L ∈ used := by
        intro h
        have h2 : used.contains (ColName.str L) = true := List.elem_eq_true_of_mem h
        rw [h2] at hLfresh
        exact absurd hLfresh (by simp)
      have hLnotnames : ¬ ColName.str L ∈ s.names := fun h => hLnotused (hsub _ h)
      have ht1names : (s.renameStr c L).names
          = s.names.map (fun n => if n == ColName.str c then ColName.str L else n) :=
        renameStr_names s c L
      have ht1nodup : (s.renameStr c L).names.Nodup := renameStr_names_nodup s c L hnd hLnotnames
      have hs1names : (Table.mk ((s.renameStr c L).cols.filter
          (fun col => !(col.name == x)))).names
          = ((s.renameStr c L).names).filter (fun n => !(n == x)) := by
        show ((s.renameStr c L).cols.filter (fun col => !(col.name == x))).map (·.name)
          = ((s.renameStr c L).cols.map (·.name)).filter (fun n => !(n == x))
        exact drop_names _ x
      have hmem_t1 : ∀ n ∈ s.names, (n == ColName.str c) = false → n ∈ (s.renameStr c L).names :=
        fun n hn hne => mem_rename_of_ne s c L n hn hne
      have hmem_s1 : ∀ n ∈ s.names, (n == ColName.str c) = false → (n == x) = false →
          n ∈ (Table.mk ((s.renameStr c L).cols.filter (fun col => !(col.name == x)))).names := by
        intro n hn hnec hnex
        rw [hs1names]
        refine List.mem_filter.mpr ⟨hmem_t1 n hn hnec, ?_⟩
        rw [hnex]
        rfl
      obtain ⟨s', used', hfold, hlen, hpres, hsubused, hmono, hdropped⟩ :=
        ih (Table.mk ((s.renameStr c L).cols.filter (fun col => !(col.name == x))))
          (used ++ [ColName.str L]) hkeys' htail_shape htail_notext
          (fun p' hp' => hmem_s1 p'.2 (htail_text p' hp') (htext_ne_c p' hp') (htext_ne_x p' hp'))
          (fun p' hp' => hmem_s1 (ColName.str p'.1) (htail_code p' hp')
            (hcode_ne_c p' hp') (hcode_ne_x p' hp'))
          (by
            intro n hn
            rw [hs1names] at hn
            have hn1 := (List.mem_filter.mp hn).1
            rw [ht1names] at hn1
            obtain ⟨m, hm, hgm⟩ := List.mem_map.mp hn1
            by_cases hmc : (m == ColName.str c) = true
            · rw [if_pos hmc] at hgm
              rw [← hgm]
              exact List.mem_append_right _ (List.mem_singleton.mpr rfl)
            · rw [if_neg hmc] at hgm
              rw [← hgm]
              exact List.mem_append_left _ (hsub m hm))
          (by
            rw [hs1names]
            exact ht1nodup.filter _)
      refine ⟨s', used', hfold, ?_, ?_, hsubused, ?_, ?_⟩
      · have hflen : ((s.renameStr c L).cols.filter (fun col => !(col.name == x))).length + 1
            = (s.renameStr c L).cols.length := by
          apply filter_ne_length
          · exact ht1nodup
          · exact hxmem1
        have hrlen := renameStr_length s c L
        rw [List.length_cons]
        have hslen : (Table.mk ((s.renameStr c L).cols.filter
            (fun col => !(col.name == x)))).cols.length
            = ((s.renameStr c L).cols.filter (fun col => !(col.name == x))).length := rfl
        omega
      · intro n hn
        rcases hpres n hn with h | h
        · rw [hs1names] at h
          have h1 := (List.mem_filter.mp h).1
          rw [ht1names] at h1
          obtain ⟨m, hm, hgm⟩ := List.mem_map.mp h1
          by_cases hmc : (m == ColName.str c) = true
          · rw [if_pos hmc] at hgm
            right
            rw [← hgm]
            exact hLnotused
          · rw [if_neg hmc] at hgm
            left
            rw [← hgm]
            exact hm
        · right
          exact fun hcon => h (List.mem_append_left _ hcon)
      · exact fun n hn => hmono n (List.mem_append_left _ hn)
      · intro p'' hp''
        rcases List.mem_cons.mp hp'' with hph | hpt
        · rw [hph]
          intro hxin
          rcases hpres x hxin with hin1 | hnotu
          · rw [hs1names] at hin1
            have := (List.mem_filter.mp hin1).2
            rw [beq_self_eq_true] at this
            exact absurd this (by simp)
          · exact hnotu (List.mem_append_left _ (hsub x hx))
        · exact hdropped p'' hpt
    | false =>
      have hcisSome : (s.getColStr c).isSome = true := getColStr_isSome_of_mem s c hcmem
      have ht1names : (s.setColStr c tc.cells).names = s.names :=
        setColStr_names_of_isSome s c tc.cells hcisSome
      have hxmem1 : x ∈ (s.setColStr c tc.cells).names := by
        rw [ht1names]
        exact hx
      have hstep := labelStep_eq_set flat s used c x tc htc hfl hxmem1
      rw [hstep, ok_bind_foldlM]
      have hs1names : (Table.mk ((s.setColStr c tc.cells).cols.filter
          (fun col => !(col.name == x)))).names
          = s.names.filter (fun n => !(n == x)) := by
        show ((s.setColStr c tc.cells).cols.filter (fun col => !(col.name == x))).map (·.name)
          = s.names.filter (fun n => !(n == x))
        rw [drop_names _ x]
        show ((s.setColStr c tc.cells).names).filter (fun n => !(n == x)) = _
        rw [ht1names]
      have hmem_s1 : ∀ n ∈ s.names, (n == x) = false →
          n ∈ (Table.mk ((s.setColStr c tc.cells).cols.filter
            (fun col => !(col.name == x)))).names := by
        intro n hn hnex
        rw [hs1names]
        refine List.mem_filter.mpr ⟨hn, ?_⟩
        rw [hnex]
        rfl
      obtain ⟨s', used', hfold, hlen, hpres, hsubused, hmono, hdropped⟩ :=
        ih (Table.mk ((s.setColStr c tc.cells).cols.filter (fun col => !(col.name == x))))
          used hkeys' htail_shape htail_notext
          (fun p' hp' => hmem_s1 p'.2 (htail_text p' hp') (htext_ne_x p' hp'))
          (fun p' hp' => hmem_s1 (ColName.str p'.1) (htail_code p' hp') (hcode_ne_x p' hp'))
          (by
            intro n hn
            rw [hs1names] at hn
            exact hsub n (List.mem_filter.mp hn).1)
          (by
            rw [hs1names]
            exact hnd.filter _)
      refine ⟨s', used', hfold, ?_, ?_, hsubused, hmono, ?_⟩
      · have ht1nodup : (s.setColStr c tc.cells).names.Nodup := by
          rw [ht1names]
          exact hnd
        have hflen : ((s.setColStr c tc.cells).cols.filter (fun col => !(col.name == x))).length + 1
            = (s.setColStr c tc.cells).cols.length := by
          apply filter_ne_length
          · exact ht1nodup
          · exact hxmem1
        have hslen := setColStr_length_of_isSome s c tc.cells hcisSome
        rw [List.length_cons]
        have hs1len : (Table.mk ((s.setColStr c tc.cells).cols.filter
            (fun col => !(col.name == x)))).cols.length
            = ((s.setColStr c tc.cells).cols.filter (fun col => !(col.name == x))).length := rfl
        omega
      · intro n hn
        rcases hpres n hn with h | h
        · rw [hs1names] at h
          exact Or.inl (List.mem_filter.mp h).1
        · exact Or.inr h
      · intro p'' hp''
        rcases List.mem_cons.mp hp'' with hph | hpt
        · rw [hph]
          intro hxin
          rcases hpres x hxin with hin1 | hnotu
          · rw [hs1names] at hin1
            have := (List.mem_filter.mp hin1).2
            rw [beq_self_eq_true] at this
            exact absurd this (by simp)
          · exact hnotu (hsub x hx)
        · exact hdropped p'' hpt

/-- Claim C3, counterexample: on the single-column table `[X(TEXT)]` the
text column has no code partner, so `detect_pairs` finds nothing and
`label_encode` returns the table unchanged — the output still contains a
`(TEXT)`-suffixed column, refuting the claimed invariant (the column-count
law does hold here, vacuously). -/
theorem claim3_counterexample :
    ∃ t', label_encode tOrphan "id" = Except.ok t'
      ∧ t'.names.any (fun n => strEndsWith n.pyStr "(TEXT)") = true :=
  ⟨tOrphan, rfl, by decide⟩

/-- Claim C3, amended: for a table with all-string, pairwise-distinct
column names none of which ends in a doubled `(TEXT)(TEXT)` suffix,
`label_encode` succeeds and returns a table with exactly
(input column count − number of detected pairs) columns, in which no
detected pair's text column survives.  The unconditional claim is false:
orphan `(TEXT)` columns that never formed a pair pass through unchanged
(see the counterexample). -/
theorem claim3_amended (t : Table) (id_var : String)
    (hstr : namesAreStrings t = true) (hdt : noDoubleText t = true)
    (hnd : t.names.Nodup) :
    ∃ t', label_encode t id_var = Except.ok t'
      ∧ t'.cols.length + (detect_pairs t.names).length = t.cols.length
      ∧ ∀ p ∈ detect_pairs t.names, ¬ p.2 ∈ t'.names := by
  have hshape := detect_pairs_shape t hstr hdt
  obtain ⟨s', used', hfold, hlen, _, _, _, hdropped⟩ :=
    labelFold_spec (multirespFlat ((detect_pairs t.names).map (·.1)))
      (detect_pairs t.names) t t.names
      (detPairs_keys_nodup t.names)
      (fun p hp => (hshape p hp).1)
      (fun p hp => (hshape p hp).2.2.2)
      (fun p hp => (hshape p hp).2.1)
      (fun p hp => (hshape p hp).2.2.1)
      (fun n hn => hn) hnd
  refine ⟨s', ?_, hlen, hdropped⟩
  show ((detect_pairs t.names).foldlM
      (labelStep (multirespFlat ((detect_pairs t.names).map (·.1))))
      (t, t.names)).map (·.1) = Except.ok s'
  rw [hfold]
  rfl

theorem claim3_witness :
    namesAreStrings tScenarioPaired = true ∧ noDoubleText tScenarioPaired = true
    ∧ tScenarioPaired.names.Nodup
    ∧ ∃ t', label_encode tScenarioPaired "id" = Except.ok t'
        ∧ t'.cols.length + (detect_pairs tScenarioPaired.names).length
            = tScenarioPaired.cols.length
        ∧ ∀ p ∈ detect_pairs tScenarioPaired.names, ¬ p.2 ∈ t'.names :=
  ⟨by decide, by decide, by decide,
    claim3_amended tScenarioPaired "id" (by decide) (by decide) (by decide)⟩
